import Mathlib

/-!
Shallow embedding of the httm lookup engine (src/versions_lookup.rs,
src/lookup_versions.rs, src/deleted_lookup.rs, src/snapshot_ops.rs) and
proofs about it.

Modelling conventions:
* A filesystem path is a list of components (`FsPath`); the Rust
  `Path::starts_with` is component-wise list-prefix, `Path::strip_prefix`
  drops a component-wise prefix, and `Path::join` is list append.
* Dataset names (`Name`) are lists of characters, so that Rust's byte-wise
  `String` operations (`ends_with`, `split_once('/')`, lexicographic
  ordering) become list operations.  UTF-8 byte order and code-point order
  coincide, so `List Char` lexicographic order models Rust `String` order.
* `std::collections::HashMap` built by `collect()` from a sequential
  iterator is modelled as an association list built by left fold of an
  insert-or-replace operation (`collectKV`): exactly Rust's semantics,
  where a later pair with an equal key replaces the earlier value.
  Iteration order of the model is the insertion order; the claims proved
  below do not depend on the hash iteration order.
* Fallible filesystem access is a record of partial functions (`Fs`):
  `readDir` returns the file names of a directory in listing order and
  `lstat` (Rust `symlink_metadata`) returns metadata; `none` is failure.
* Rust `Result` is `Except HttmError`; `HttmError::new(msg)` keeps its
  message string.
-/

instance {ε α : Type} [DecidableEq ε] [DecidableEq α] : DecidableEq (Except ε α) :=
  fun a b =>
    match a, b with
    | .ok x, .ok y =>
        if h : x = y then .isTrue (by rw [h])
        else .isFalse (by intro hc; cases hc; exact h rfl)
    | .error e, .error f =>
        if h : e = f then .isTrue (by rw [h])
        else .isFalse (by intro hc; cases hc; exact h rfl)
    | .ok _, .error _ => .isFalse (by intro hc; cases hc)
    | .error _, .ok _ => .isFalse (by intro hc; cases hc)

/-- A filesystem path, as its list of components below the root. -/
abbrev FsPath : Type := List String

/-- A dataset name, as its list of characters. -/
abbrev Name : Type := List Char

/-- Rust `OsStr::len` of the rendered absolute path: one byte for each
leading `/` plus the UTF-8 byte length of each component; the root alone
renders as `"/"` with length 1. -/
def osLen (p : FsPath) : Nat :=
  match p with
  | [] => 1
  | _ => p.foldl (fun a c => a + 1 + c.utf8ByteSize) 0

/-- `FilesystemType` from the httm sources. -/
inductive FilesystemType : Type
  | zfs
  | btrfs
deriving DecidableEq, Repr

/-- `HttmError` from the httm sources: an error wrapping a message. -/
structure HttmError : Type where
  msg : String
deriving DecidableEq, Repr

/-- Metadata the model filesystem returns for `symlink_metadata`:
`modified` is `none` when the platform carries no modify time
(Rust `Metadata::modified()` returning `Err`). -/
structure Metadata : Type where
  modified : Option Nat
  size : Nat
deriving DecidableEq, Repr

/-- The model filesystem: `readDir` lists the file names of a directory in
listing order, `lstat` is `symlink_metadata`; `none` models the syscall
failing. -/
structure Fs : Type where
  readDir : FsPath → Option (List String)
  lstat : FsPath → Option Metadata

/-- `PathData` from the httm sources: a path together with the observed
system modify time and size, or a phantom marker when the path could not
be stat'd. -/
structure PathData : Type where
  path_buf : FsPath
  system_time : Nat
  size : Nat
  is_phantom : Bool
deriving DecidableEq, Repr

/-- Modelled from the spec: `PathData::from` lives in utility.rs, which is
not under src/.  Per spec §3, a record whose metadata is absent is phantom
and carries the sentinel `mtime = EPOCH+0`, `size = 0`; a missing modify
time also falls back to the epoch sentinel. -/
def PathData.fromFs (fs : Fs) (p : FsPath) : PathData :=
  match fs.lstat p with
  | some md => ⟨p, md.modified.getD 0, md.size, false⟩
  | none => ⟨p, 0, 0, true⟩

/-- `ZFS_SNAPSHOT_DIRECTORY` (".zfs/snapshot") as path components. -/
def ZFS_SNAPSHOT_DIRECTORY : FsPath := [".zfs", "snapshot"]

section KV

variable {κ ν : Type} [DecidableEq κ]

/-- Association-list lookup: the value of the first pair with the key. -/
def lookupKV : List (κ × ν) → κ → Option ν
  | [], _ => none
  | p :: rest, k => if p.1 = k then some p.2 else lookupKV rest k

/-- `HashMap::insert`: replace the value at an existing key in place,
otherwise append the new pair. -/
def insertKV : List (κ × ν) → κ × ν → List (κ × ν)
  | [], e => [e]
  | p :: rest, e => if p.1 = e.1 then e :: rest else p :: insertKV rest e

/-- `collect::<HashMap<_, _>>()` from a sequential iterator: left fold of
insert-or-replace starting from the empty map, so a later pair with an
equal key replaces the earlier value. -/
def collectKV (l : List (κ × ν)) : List (κ × ν) :=
  l.foldl insertKV []

/-- The value of the last pair carrying a key, scanning left to right. -/
def lastValKV : List (κ × ν) → κ → Option ν
  | [], _ => none
  | p :: rest, k =>
      match lastValKV rest k with
      | some v => some v
      | none => if p.1 = k then some p.2 else none

end KV

/-- Rust's `Iterator::max_by_key`: the greatest element by the key, the
*last* one on ties (folding left keeps the later element when keys tie). -/
def maxByKey {α : Type} (f : α → Nat) (l : List α) : Option α :=
  l.foldl (fun acc x =>
    match acc with
    | none => some x
    | some y => if f y ≤ f x then some x else some y) none

/-- `collect::<Result<Vec<_>, _>>()`: map a fallible function over a list,
stopping at the first error. -/
def mapE {α β : Type} : List α → (α → Except HttmError β) → Except HttmError (List β)
  | [], _ => .ok []
  | x :: xs, f =>
      match f x with
      | .error e => .error e
      | .ok y =>
          match mapE xs f with
          | .error e => .error e
          | .ok ys => .ok (y :: ys)

/-- Flattening a `Result` in a Rust iterator chain: an `Ok` contributes its
content, an `Err` contributes nothing. -/
def exceptList {α : Type} : Except HttmError (List α) → List α
  | .ok l => l
  | .error _ => []

/-! ## Embedding of src/versions_lookup.rs -/

/-- Error of `get_immediate_dataset` when no mount is an ancestor
(versions_lookup.rs line 243). -/
def noDatasetError : HttmError :=
  ⟨"Could not identify any qualifying dataset.  Maybe consider specifying manually at SNAP_POINT?"⟩

/-- Error of the (unreachable) empty `max_by_key` branch
(versions_lookup.rs line 255; the source formats the path into the
message, elided here). -/
def noBestMatchError : HttmError :=
  ⟨"There is no best match for a ZFS dataset to use. Sorry!/Not sorry?)"⟩

/-- Error of `get_alt_replicated_datasets` (versions_lookup.rs lines 273,
291). -/
def noAltReplicaError : HttmError :=
  ⟨"httm was unable to detect an alternate replicated mount point.  Perhaps the replicated filesystem is not mounted?"⟩

/-- Rust `StripPrefixError` ("prefix not found"), propagated by `?`. -/
def stripError : HttmError := ⟨"prefix not found"⟩

/-- A failed `read_dir`, propagated by `?`. -/
def readDirError : HttmError := ⟨"read_dir failed"⟩

/-- Error of `get_versions_set` when nothing at all exists
(versions_lookup.rs line 74). -/
def noCopiesError : HttmError :=
  ⟨"Neither a live copy, nor a snapshot copy of such a file appears to exist, so, umm, 🤷? Please try another file."⟩

/-- `SnapPoint::UserDefined` payload: user-defined snap and local dirs. -/
structure DefinedDirs : Type where
  snap_dir : FsPath
  local_dir : FsPath
  fstype : FilesystemType
deriving DecidableEq, Repr

/-- `SnapPoint::Native` payload: the detected mount table and the optional
precomputed snapshot-mount and alternate-replica maps. -/
structure NativeDatasets : Type where
  map_of_datasets : List (FsPath × Name × FilesystemType)
  map_of_snaps : Option (List (FsPath × List FsPath))
  map_of_alts : Option (List (FsPath × List FsPath))
deriving DecidableEq, Repr

/-- `SnapPoint` from the httm sources. -/
inductive SnapPoint : Type
  | userDefined (defined_dirs : DefinedDirs)
  | native (native_datasets : NativeDatasets)
deriving DecidableEq, Repr

/-- The slice of `Config` the embedded functions consult. -/
structure Config : Type where
  snap_point : SnapPoint
  opt_alt_replicated : Bool
  opt_no_live_vers : Bool
deriving DecidableEq, Repr

/-- `DatasetsForSearch` from versions_lookup.rs. -/
structure DatasetsForSearch : Type where
  immediate_dataset_mount : FsPath
  datasets_of_interest : List FsPath
deriving DecidableEq, Repr

/-- `NativeDatasetType` from versions_lookup.rs. -/
inductive NativeDatasetType : Type
  | mostImmediate
  | altReplicated
deriving DecidableEq, Repr

/-- `SearchBundle` from versions_lookup.rs. -/
structure SearchBundle : Type where
  snapshot_dir : FsPath
  relative_path : FsPath
  snapshot_mounts : Option (List FsPath)
deriving DecidableEq, Repr

/-- `Path::strip_prefix` followed by `?`: drop a component-wise prefix or
fail. -/
def stripPre (p base : FsPath) : Except HttmError FsPath :=
  if base <+: p then .ok (p.drop base.length) else .error stripError

/-- `get_immediate_dataset` (versions_lookup.rs lines 227-264): keep the
mounts that are component-wise ancestors of the path, then take the one of
greatest rendered byte length (`max_by_key(as_os_str().len())`). -/
def get_immediate_dataset (pathdata : PathData)
    (mount_collection : List (FsPath × Name × FilesystemType)) :
    Except HttmError FsPath :=
  let path := pathdata.path_buf
  let potential_mountpoints :=
    (mount_collection.map Prod.fst).filter (fun mount => decide (mount <+: path))
  if potential_mountpoints.isEmpty then .error noDatasetError
  else
    match maxByKey osLen potential_mountpoints with
    | some best_potential_mountpoint => .ok best_potential_mountpoint
    | none => .error noBestMatchError

/-- The ascending-byte-length relation `sort_unstable_by_key(len)` sorts
by. -/
def pathLenLe (a b : FsPath) : Prop := osLen a ≤ osLen b

instance : DecidableRel pathLenLe := fun a b => Nat.decLe (osLen a) (osLen b)

instance : IsTotal FsPath pathLenLe := ⟨fun a b => Nat.le_total (osLen a) (osLen b)⟩

instance : IsTrans FsPath pathLenLe := ⟨fun _ _ _ => Nat.le_trans⟩

/-- `get_alt_replicated_datasets` (versions_lookup.rs lines 266-303): the
mounts whose dataset name differs from and ends with the immediate
dataset's name, sorted ascending by mount-path byte length. -/
def get_alt_replicated_datasets (immediate_dataset_mount : FsPath)
    (mount_collection : List (FsPath × Name × FilesystemType)) :
    Except HttmError DatasetsForSearch :=
  match lookupKV mount_collection immediate_dataset_mount with
  | none => .error noAltReplicaError
  | some (immediate_dataset_fs_name, _) =>
      let alt_replicated_mounts :=
        ((mount_collection.filter (fun e =>
            decide (¬ e.2.1 = immediate_dataset_fs_name ∧
              immediate_dataset_fs_name <:+ e.2.1))).map Prod.fst)
      if alt_replicated_mounts.isEmpty then .error noAltReplicaError
      else
        .ok ⟨immediate_dataset_mount,
          List.insertionSort pathLenLe alt_replicated_mounts⟩

/-- The `dataset_collection` computation of `get_search_bundle`
(versions_lookup.rs lines 124-158). -/
def datasets_for_search_of (config : Config) (file_pathdata : PathData)
    (requested_dataset_type : NativeDatasetType) :
    Except HttmError DatasetsForSearch :=
  match config.snap_point with
  | .userDefined defined_dirs =>
      .ok ⟨defined_dirs.snap_dir, [defined_dirs.snap_dir]⟩
  | .native native_datasets =>
      match get_immediate_dataset file_pathdata native_datasets.map_of_datasets with
      | .error e => .error e
      | .ok immediate_dataset_mount =>
          match requested_dataset_type with
          | .mostImmediate =>
              .ok ⟨immediate_dataset_mount, [immediate_dataset_mount]⟩
          | .altReplicated =>
              match native_datasets.map_of_alts with
              | some map_of_alts =>
                  match lookupKV map_of_alts immediate_dataset_mount with
                  | some alternate_mounts =>
                      .ok ⟨immediate_dataset_mount, alternate_mounts⟩
                  | none =>
                      get_alt_replicated_datasets immediate_dataset_mount
                        native_datasets.map_of_datasets
              | none =>
                  get_alt_replicated_datasets immediate_dataset_mount
                    native_datasets.map_of_datasets

/-- One bundle of the `par_iter().map(...)` of `get_search_bundle`
(versions_lookup.rs lines 160-223); the relative path is always stripped
against `dataset_collection.immediate_dataset_mount` (or the alias's
`local_dir`), never against the dataset of interest. -/
def bundle_of (config : Config) (file_pathdata : PathData)
    (dataset_collection : DatasetsForSearch) (dataset_of_interest : FsPath) :
    Except HttmError SearchBundle :=
  match config.snap_point with
  | .userDefined defined_dirs =>
      let snapshot_dir :=
        match defined_dirs.fstype with
        | .zfs => dataset_of_interest ++ ZFS_SNAPSHOT_DIRECTORY
        | .btrfs => dataset_of_interest
      match stripPre file_pathdata.path_buf defined_dirs.local_dir with
      | .error e => .error e
      | .ok relative_path => .ok ⟨snapshot_dir, relative_path, none⟩
  | .native native_datasets =>
      let snapshot_dir :=
        match lookupKV native_datasets.map_of_datasets dataset_of_interest with
        | some (_, FilesystemType.zfs) => dataset_of_interest ++ ZFS_SNAPSHOT_DIRECTORY
        | some (_, FilesystemType.btrfs) => dataset_of_interest
        | none => dataset_of_interest ++ ZFS_SNAPSHOT_DIRECTORY
      let snapshot_mounts :=
        match native_datasets.map_of_snaps with
        | some map_of_snaps => lookupKV map_of_snaps dataset_of_interest
        | none => none
      match stripPre file_pathdata.path_buf
          dataset_collection.immediate_dataset_mount with
      | .error e => .error e
      | .ok relative_path => .ok ⟨snapshot_dir, relative_path, snapshot_mounts⟩

/-- `get_search_bundle` (versions_lookup.rs lines 106-225). -/
def get_search_bundle (config : Config) (file_pathdata : PathData)
    (requested_dataset_type : NativeDatasetType) :
    Except HttmError (List SearchBundle) :=
  match datasets_for_search_of config file_pathdata requested_dataset_type with
  | .error e => .error e
  | .ok dataset_collection =>
      mapE dataset_collection.datasets_of_interest
        (bundle_of config file_pathdata dataset_collection)

/-- The deduplication key: `(system modify time, size)`. -/
def versionKey (pd : PathData) : Nat × Nat := (pd.system_time, pd.size)

/-- `read_dir_for_datasets` (versions_lookup.rs lines 317-335): the
fallback when no `map_of_snaps` is available; stats
`<snapshot_dir>/<entry>/<relative_path>` for every listed entry, drops
phantoms and collects into the dedup map. -/
def read_dir_for_datasets (fs : Fs) (snapshot_dir relative_path : FsPath) :
    Except HttmError (List ((Nat × Nat) × PathData)) :=
  match fs.readDir snapshot_dir with
  | none => .error readDirError
  | some entries =>
      .ok (collectKV ((((entries.map
          (fun e => snapshot_dir ++ [e] ++ relative_path)).map
        (PathData.fromFs fs)).filter (fun pd => !pd.is_phantom)).map
        (fun pd => (versionKey pd, pd))))

/-- The non-decreasing-modify-time relation used to state sortedness. -/
def timeLe (a b : PathData) : Prop := a.system_time ≤ b.system_time

instance : DecidableRel timeLe := fun a b => Nat.decLe a.system_time b.system_time

instance : IsTotal PathData timeLe := ⟨fun a b => Nat.le_total a.system_time b.system_time⟩

instance : IsTrans PathData timeLe := ⟨fun _ _ _ => Nat.le_trans⟩

/-- The per-snapshot-mount observations of a bundle carrying explicit
snapshot mounts, in iteration order: stat `<mount>/<relative_path>` for
each mount and drop phantoms (versions_lookup.rs lines 342-346). -/
def snap_observations (fs : Fs) (snap_mounts : List FsPath)
    (relative_path : FsPath) : List PathData :=
  ((snap_mounts.map (fun m => m ++ relative_path)).map
    (PathData.fromFs fs)).filter (fun pd => !pd.is_phantom)

/-- The `(mtime, size) → PathData` dedup map of `get_versions_per_dataset`
(versions_lookup.rs lines 337-356): from the explicit snapshot mounts when
the bundle carries them, else by listing the snapshot directory. -/
def unique_versions_of (fs : Fs) (config : Config) (search_bundle : SearchBundle) :
    Except HttmError (List ((Nat × Nat) × PathData)) :=
  match config.snap_point with
  | .native native_datasets =>
      match native_datasets.map_of_snaps with
      | some _ =>
          match search_bundle.snapshot_mounts with
          | some snap_mounts =>
              .ok (collectKV ((snap_observations fs snap_mounts
                  search_bundle.relative_path).map
                (fun pd => (versionKey pd, pd))))
          | none =>
              read_dir_for_datasets fs search_bundle.snapshot_dir
                search_bundle.relative_path
      | none =>
          read_dir_for_datasets fs search_bundle.snapshot_dir
            search_bundle.relative_path
  | .userDefined _ =>
      read_dir_for_datasets fs search_bundle.snapshot_dir
        search_bundle.relative_path

/-- `get_versions_per_dataset` (versions_lookup.rs lines 305-363): build
the dedup map for one search bundle, then sort the surviving records
ascending by modify time. -/
def get_versions_per_dataset (fs : Fs) (config : Config)
    (search_bundle : SearchBundle) : Except HttmError (List PathData) :=
  match unique_versions_of fs config search_bundle with
  | .error e => .error e
  | .ok unique_versions =>
      .ok (List.insertionSort timeLe (unique_versions.map Prod.snd))

/-- The dataset-selection policy of `get_versions_set` and
`get_unique_deleted` (versions_lookup.rs lines 52-59). -/
def selected_datasets_of (config : Config) : List NativeDatasetType :=
  if config.opt_alt_replicated then
    [NativeDatasetType.altReplicated, NativeDatasetType.mostImmediate]
  else [NativeDatasetType.mostImmediate]

/-- `get_all_snap_versions` (versions_lookup.rs lines 83-104): fan out over
input paths and selected dataset types, flatten errors away, and
concatenate the per-bundle version lists. -/
def get_all_snap_versions (fs : Fs) (config : Config)
    (pathdata : List PathData) (selected_datasets : List NativeDatasetType) :
    List PathData :=
  ((pathdata.flatMap fun path_data =>
      selected_datasets.flatMap fun dataset_type =>
        exceptList (get_search_bundle config path_data dataset_type)).flatMap
    fun search_bundle => exceptList (get_versions_per_dataset fs config search_bundle))

/-- `get_versions_set` (versions_lookup.rs lines 47-81). -/
def get_versions_set (fs : Fs) (config : Config) (pathdata : List PathData) :
    Except HttmError (List PathData × List PathData) :=
  let selected_datasets := selected_datasets_of config
  let all_snap_versions := get_all_snap_versions fs config pathdata selected_datasets
  let live_versions := if !config.opt_no_live_vers then pathdata else []
  if all_snap_versions.isEmpty && live_versions.all (fun i => i.is_phantom) then
    .error noCopiesError
  else .ok (all_snap_versions, live_versions)


/-! ## Embedding of src/deleted_lookup.rs -/

/-- `BasicDirEntryInfo` from the httm sources; the `file_type` field is
captured but never consulted by the embedded functions, so it is elided. -/
structure BasicDirEntryInfo : Type where
  file_name : String
  path : FsPath
deriving DecidableEq, Repr

/-- The `(file_name, BasicDirEntryInfo)` pairs one `read_dir` yields, in
listing order: `DirEntry::path()` is the listed directory joined with the
file name.  A failing `read_dir` contributes nothing (the callers flatten
the failure away with `flat_map`). -/
def entriesOfDir (fs : Fs) (dir : FsPath) : List (String × BasicDirEntryInfo) :=
  match fs.readDir dir with
  | some names => names.map (fun n => (n, ⟨n, dir ++ [n]⟩))
  | none => []

/-- `read_dir_for_snap_filenames` (deleted_lookup.rs lines 117-144): the
fallback without a `map_of_snaps`; a failure listing `snapshot_dir` itself
propagates with `?`. -/
def read_dir_for_snap_filenames (fs : Fs) (snapshot_dir relative_path : FsPath) :
    Except HttmError (List (String × BasicDirEntryInfo)) :=
  match fs.readDir snapshot_dir with
  | none => .error readDirError
  | some entries =>
      .ok (collectKV ((entries.map
        (fun e => snapshot_dir ++ [e] ++ relative_path)).flatMap (entriesOfDir fs)))

/-- The live-directory filename map of `get_deleted_per_dataset`
(deleted_lookup.rs lines 100-112); a failing `read_dir` of the requested
directory propagates with `?`. -/
def unique_local_filenames_of (fs : Fs) (requested_dir : FsPath) :
    Except HttmError (List (String × BasicDirEntryInfo)) :=
  match fs.readDir requested_dir with
  | none => .error readDirError
  | some names =>
      .ok (collectKV (names.map
        (fun n => (n, (⟨n, requested_dir ++ [n]⟩ : BasicDirEntryInfo)))))

/-- The snap filename map of `get_deleted_per_dataset` (deleted_lookup.rs
lines 146-181): within one dataset, a later snapshot mount's entry of a
name overwrites an earlier one. -/
def unique_snap_filenames_of (fs : Fs) (config : Config)
    (search_bundle : SearchBundle) :
    Except HttmError (List (String × BasicDirEntryInfo)) :=
  match config.snap_point with
  | .native native_datasets =>
      match native_datasets.map_of_snaps with
      | some _ =>
          match search_bundle.snapshot_mounts with
          | some snap_mounts =>
              .ok (collectKV ((snap_mounts.map
                (fun m => m ++ search_bundle.relative_path)).flatMap (entriesOfDir fs)))
          | none =>
              read_dir_for_snap_filenames fs search_bundle.snapshot_dir
                search_bundle.relative_path
      | none =>
          read_dir_for_snap_filenames fs search_bundle.snapshot_dir
            search_bundle.relative_path
  | .userDefined _ =>
      read_dir_for_snap_filenames fs search_bundle.snapshot_dir
        search_bundle.relative_path

/-- `get_deleted_per_dataset` (deleted_lookup.rs lines 92-191): the snap
filenames unique per dataset, minus the live filenames. -/
def get_deleted_per_dataset (fs : Fs) (config : Config) (requested_dir : FsPath)
    (search_bundle : SearchBundle) : Except HttmError (List BasicDirEntryInfo) :=
  match unique_local_filenames_of fs requested_dir with
  | .error e => .error e
  | .ok unique_local_filenames =>
      match unique_snap_filenames_of fs config search_bundle with
      | .error e => .error e
      | .ok unique_snap_filenames =>
          .ok ((unique_snap_filenames.filter
            (fun p => (lookupKV unique_local_filenames p.1).isNone)).map Prod.snd)

/-- The deleted candidates `get_unique_deleted` aggregates
(deleted_lookup.rs lines 49-60): fan out over the selected dataset types
and their search bundles, then over each bundle's per-dataset deleted
entries, flattening errors away. -/
def deleted_candidates (fs : Fs) (config : Config) (requested_dir : FsPath) :
    List BasicDirEntryInfo :=
  let selected_datasets := selected_datasets_of config
  let requested_dir_pathdata := PathData.fromFs fs requested_dir
  ((selected_datasets.flatMap fun dataset_type =>
      exceptList (get_search_bundle config requested_dir_pathdata dataset_type)).flatMap
    fun search_bundle =>
      exceptList (get_deleted_per_dataset fs config
        requested_dir_pathdata.path_buf search_bundle))

/-- The candidates that survive the `symlink_metadata` and `modified()`
filter_maps, paired with their modify time (deleted_lookup.rs lines
61-70). -/
def deleted_with_times (fs : Fs) (config : Config) (requested_dir : FsPath) :
    List (Nat × BasicDirEntryInfo) :=
  (deleted_candidates fs config requested_dir).filterMap fun b =>
    (fs.lstat b.path).bind fun md => md.modified.map fun t => (t, b)

/-- `into_group_map_by(file_name)` (deleted_lookup.rs lines 76-78): one
group per distinct file name, listing its yields in occurrence order.
The Rust `HashMap` iterates its groups in an unspecified order; the model
fixes one order of the distinct names. -/
def groupPairs (l : List (Nat × BasicDirEntryInfo)) :
    List (String × List (Nat × BasicDirEntryInfo)) :=
  (l.map (fun p => p.2.file_name)).dedup.map fun k =>
    (k, l.filter (fun p => decide (p.2.file_name = k)))

/-- `get_unique_deleted` (deleted_lookup.rs lines 26-90): per file name,
keep the yield of maximum modify time. -/
def get_unique_deleted (fs : Fs) (config : Config) (requested_dir : FsPath) :
    Except HttmError (List BasicDirEntryInfo) :=
  .ok (((groupPairs (deleted_with_times fs config requested_dir)).filterMap
    fun g => maxByKey Prod.fst g.2).map Prod.snd)

/-! ## Embedding of src/snapshot_ops.rs -/

/-- Error for a non-ZFS mount (snapshot_ops.rs line 50). -/
def unsupportedFilesystemError : HttmError :=
  ⟨"httm does not currently support snapshot-ing non-ZFS filesystems."⟩

/-- Error for a mount missing from the mount table (snapshot_ops.rs
line 53). -/
def parseDatasetError : HttmError :=
  ⟨"httm was unable to parse dataset from mount!"⟩

/-- Error taken whenever an alias map is present (snapshot_ops.rs
line 56). -/
def unsupportedAliasError : HttmError :=
  ⟨"httm does not currently support snapshot-ing user defined mount points."⟩

/-- The per-mount dataset metadata snapshot_ops.rs reads from
`map_of_datasets`: dataset name and filesystem type. -/
structure DatasetInfo : Type where
  name : Name
  fs_type : FilesystemType
deriving DecidableEq, Repr

/-- The slice of the `Config`/`DatasetCollection` of snapshot_ops.rs:
the mount table, and the alias map of which only presence is tested. -/
structure SnapConfig : Type where
  map_of_datasets : List (FsPath × DatasetInfo)
  opt_map_of_aliases : Option (List (FsPath × FsPath))
deriving DecidableEq, Repr

/-- The snapshot-name format (snapshot_ops.rs lines 59-63):
`<dataset>@snap_<timestamp>_httmSnapFileMount`. -/
def make_snapshot_name (dataset timestamp : Name) : Name :=
  dataset ++ "@snap_".toList ++ timestamp ++ "_httmSnapFileMount".toList

/-- The per-mount resolution and name construction of `exec_zfs_snapshot`
(snapshot_ops.rs lines 39-66), collected `Result`-fallibly over all
mounts of the `MountsForFiles` value set, so the first failing mount
yields no snapshot names at all for the batch. -/
def vec_snapshot_names (config : SnapConfig)
    (mounts_for_files : List (PathData × List PathData)) (timestamp : Name) :
    Except HttmError (List Name) :=
  mapE (mounts_for_files.flatMap Prod.snd) fun mount =>
    match config.opt_map_of_aliases with
    | none =>
        match lookupKV config.map_of_datasets mount.path_buf with
        | some dataset_info =>
            if dataset_info.fs_type = FilesystemType.zfs then
              .ok (make_snapshot_name dataset_info.name timestamp)
            else .error unsupportedFilesystemError
        | none => .error parseDatasetError
    | some _ => .error unsupportedAliasError

/-- `split_once('/')` pool extraction (snapshot_ops.rs lines 73-78): the
text before the first `/`, which is the whole name when it has none
(`unwrap_or` falls back to the full snapshot name). -/
def pool_of (snapshot_name : Name) : Name :=
  snapshot_name.takeWhile (fun c => decide (¬ c = '/'))

/-- Rust `Vec::dedup`: remove *consecutive* duplicates. -/
def dedupAdj {α : Type} [DecidableEq α] : List α → List α
  | [] => []
  | [a] => [a]
  | a :: b :: rest =>
      if a = b then dedupAdj (b :: rest) else a :: dedupAdj (b :: rest)

/-- The pool-grouped, sorted, deduplicated snapshot-name map
(snapshot_ops.rs lines 71-85): one group per distinct pool prefix, its
names sorted lexicographically with consecutive duplicates removed.
(The `BTreeMap` orders the groups by pool; group order is immaterial to
the claims and the model keeps one fixed order of the distinct pools.) -/
def map_snapshot_names (names : List Name) : List (Name × List Name) :=
  (names.map pool_of).dedup.map fun pool =>
    (pool, dedupAdj (List.insertionSort (fun a b : Name => a ≤ b)
      (names.filter (fun n => decide (pool_of n = pool)))))

/-- The argv of one snapshot-utility invocation (snapshot_ops.rs lines
88-89): the literal `"snapshot"` followed by one pool group's names. -/
def process_args (snapshot_names : List Name) : List Name :=
  "snapshot".toList :: snapshot_names

/-! ## Proximate-dataset resolution with cache (src/lookup_versions.rs) -/

/-- `Path::ancestors()`: the path itself, then each parent up to and
including the root, longest first. -/
def ancestorsOf (p : FsPath) : List FsPath :=
  (List.range (p.length + 1)).map (fun i => p.take (p.length - i))

/-- Modelled from the spec: the body of `get_proximate_dataset`
(lookup_versions.rs lines 303-347) is syntactically incomplete in the
source — the consult of the memoisation `CACHE` and the assembly of the
closures are missing — so the cache consult follows spec §4.1 ("the
immediate parent directory's result is memoised …; repeated queries
within a directory walk hit the cache").  The fallback walk and the cache
*write* are taken from the source lines 311-328 verbatim: on a hit of the
ancestor walk the source executes `if let ancestor = parent { CACHE.insert
(parent, ancestor) }`, an irrefutable binding that rebinds `ancestor` to
`parent`, so the inserted pair is `(parent, parent)` — not the resolved
mount.  The bounded (~30 entries) eviction of the `moka` cache is not
modelled; no run below inserts more than one entry. -/
def get_proximate_dataset (cache : List (FsPath × FsPath)) (pathdata : PathData)
    (map_of_datasets : List (FsPath × Name × FilesystemType)) :
    Except HttmError FsPath × List (FsPath × FsPath) :=
  let parent := pathdata.path_buf.dropLast
  match lookupKV cache parent with
  | some cached => (.ok cached, cache)
  | none =>
      match (ancestorsOf pathdata.path_buf).findSome? (fun ancestor =>
          if (lookupKV map_of_datasets ancestor).isSome then some ancestor
          else none) with
      | some ancestor => (.ok ancestor, insertKV cache (parent, parent))
      | none => (.error noDatasetError, cache)

/-! ## Concrete instances for witnesses and counterexamples -/

/-- Scenario S1 mount table: `/` ↦ rpool/root, `/home` ↦ rpool/home. -/
def mapS1 : List (FsPath × Name × FilesystemType) :=
  [([], "rpool/root".toList, FilesystemType.zfs),
   (["home"], "rpool/home".toList, FilesystemType.zfs)]

/-- Scenario S1 query path `/home/alice/x.txt` (need not exist). -/
def pdS1 : PathData := ⟨["home", "alice", "x.txt"], 0, 0, true⟩

/-- Scenario S2 mount table: S1 plus the replica
`/mnt/backup/home` ↦ tank/rpool/home. -/
def mapS2 : List (FsPath × Name × FilesystemType) :=
  mapS1 ++ [(["mnt", "backup", "home"], "tank/rpool/home".toList, FilesystemType.zfs)]

/-- The last observation carrying a given dedup key, scanning the
observations left to right. -/
def lastObservation (observations : List PathData) (k : Nat × Nat) :
    Option PathData :=
  lastValKV (observations.map (fun pd => (versionKey pd, pd))) k

/-- A small filesystem built from association lists. -/
def mkFs (dirs : List (FsPath × List String)) (stats : List (FsPath × Metadata)) : Fs :=
  ⟨fun p => lookupKV dirs p, fun p => lookupKV stats p⟩

/-- A native config over the S1 table with no precomputed maps. -/
def cfgW2 : Config := ⟨SnapPoint.native ⟨mapS1, none, none⟩, false, false⟩

/-- The single bundle `cfgW2` produces for `pdS1` under MostImmediate. -/
def bundlesW2 : List SearchBundle :=
  [⟨["home", ".zfs", "snapshot"], ["alice", "x.txt"], none⟩]

/-- A one-dataset mount table: `/home` ↦ rpool/home. -/
def mapHome : List (FsPath × Name × FilesystemType) :=
  [(["home"], "rpool/home".toList, FilesystemType.zfs)]

/-- Snapshot mount `snapA` of `/home`. -/
def homeSnapA : FsPath := ["home", ".zfs", "snapshot", "snapA"]

/-- Snapshot mount `snapB` of `/home`. -/
def homeSnapB : FsPath := ["home", ".zfs", "snapshot", "snapB"]

/-- A native config over `mapHome` with both snapshot mounts precomputed. -/
def cfgHome : Config :=
  ⟨SnapPoint.native ⟨mapHome, some [(["home"], [homeSnapA, homeSnapB])], none⟩,
    false, false⟩

/-- The bundle for `/home/f` under `cfgHome`. -/
def sbHome : SearchBundle :=
  ⟨["home", ".zfs", "snapshot"], ["f"], some [homeSnapA, homeSnapB]⟩

/-- Two snapshots captured `/home/f` with identical `(mtime, size)`. -/
def fsDup : Fs :=
  mkFs [] [(homeSnapA ++ ["f"], ⟨some 100, 5⟩), (homeSnapB ++ ["f"], ⟨some 100, 5⟩)]

/-- Two snapshots captured `/home/f` with the newer version listed
first. -/
def fsTwo : Fs :=
  mkFs [] [(homeSnapA ++ ["f"], ⟨some 200, 1⟩), (homeSnapB ++ ["f"], ⟨some 100, 1⟩)]

/-- A mount table with a replica: `/home` ↦ rpool/home and `/backup` ↦
tank/rpool/home. -/
def mapRepl : List (FsPath × Name × FilesystemType) :=
  [(["home"], "rpool/home".toList, FilesystemType.zfs),
   (["backup"], "tank/rpool/home".toList, FilesystemType.zfs)]

/-- Snapshot mount of `/home` in the replica table. -/
def homeSnap1 : FsPath := ["home", ".zfs", "snapshot", "h1"]

/-- Snapshot mount of `/backup` in the replica table. -/
def backupSnap1 : FsPath := ["backup", ".zfs", "snapshot", "b1"]

/-- A native config over `mapRepl` with alternate-replica search on. -/
def cfgRepl : Config :=
  ⟨SnapPoint.native ⟨mapRepl,
      some [(["home"], [homeSnap1]), (["backup"], [backupSnap1])], none⟩,
    true, false⟩

/-- The live input path `/home/f` for the replica scenario. -/
def pdRepl : PathData := ⟨["home", "f"], 10, 1, false⟩

/-- The replica's copy of `/home/f` is newer than the proximate one. -/
def fsRepl : Fs :=
  mkFs [] [(homeSnap1 ++ ["f"], ⟨some 100, 1⟩), (backupSnap1 ++ ["f"], ⟨some 200, 2⟩)]

/-- The live directory `/home/alice` for the deleted-lookup scenarios. -/
def rdDel : FsPath := ["home", "alice"]

/-- Deleted-lookup scenario: live `/home/alice` holds only `x`; both
snapshots hold `x` and `y`; the `snapA` incarnation of `y` (mtime 70) is
newer than the `snapB` one (mtime 50). -/
def fsDel : Fs :=
  mkFs
    [(rdDel, ["x"]), (homeSnapA ++ ["alice"], ["x", "y"]),
     (homeSnapB ++ ["alice"], ["x", "y"])]
    [(homeSnapA ++ ["alice", "y"], ⟨some 70, 1⟩),
     (homeSnapB ++ ["alice", "y"], ⟨some 50, 1⟩)]

/-- Deleted-lookup scenario for the lstat-failure omission: `y` exists in
the snapshot listing but its snapshot path cannot be lstat'd any more;
`z` exists and can. -/
def fsGone : Fs :=
  mkFs
    [(rdDel, ["x"]), (homeSnapA ++ ["alice"], ["x", "y", "z"])]
    [(homeSnapA ++ ["alice", "z"], ⟨some 30, 2⟩)]

/-- A config like `cfgHome` but with only `snapA` precomputed. -/
def cfgHomeA : Config :=
  ⟨SnapPoint.native ⟨mapHome, some [(["home"], [homeSnapA])], none⟩, false, false⟩

/-- snapshot_ops mount table: `/home` ↦ rpool/home, `/data` ↦ tank/data,
`/r` ↦ rpool (a pool-root dataset without a `/`). -/
def snapCfg7 : SnapConfig :=
  ⟨[(["home"], ⟨"rpool/home".toList, FilesystemType.zfs⟩),
    (["data"], ⟨"tank/data".toList, FilesystemType.zfs⟩),
    (["r"], ⟨"rpool".toList, FilesystemType.zfs⟩)], none⟩

/-- MountsForFiles value set naming `/home` twice (a duplicate),
`/data`, and `/r`. -/
def mff7 : List (PathData × List PathData) :=
  [(⟨["home", "f"], 0, 0, false⟩,
    [⟨["home"], 0, 0, false⟩, ⟨["data"], 0, 0, false⟩, ⟨["r"], 0, 0, false⟩,
     ⟨["home"], 0, 0, false⟩])]

/-- snapshot_ops config whose alias map is present but does not contain
the resolved mount. -/
def snapCfg8 : SnapConfig :=
  ⟨[(["home"], ⟨"rpool/home".toList, FilesystemType.zfs⟩)],
    some [(["a"], ["b"])]⟩

/-- MountsForFiles value set of the plain ZFS mount `/home`. -/
def mff8 : List (PathData × List PathData) :=
  [(⟨["home", "f"], 0, 0, false⟩, [⟨["home"], 0, 0, false⟩])]

/-- snapshot_ops config without an alias map, whose only mount is
Btrfs. -/
def snapCfg8b : SnapConfig :=
  ⟨[(["home"], ⟨"rpool/home".toList, FilesystemType.btrfs⟩)], none⟩

/-- The snapshot names `snapCfg7`/`mff7` produce at timestamp `T1`. -/
def names7 : List Name :=
  ["rpool/home@snap_T1_httmSnapFileMount".toList,
   "tank/data@snap_T1_httmSnapFileMount".toList,
   "rpool@snap_T1_httmSnapFileMount".toList,
   "rpool/home@snap_T1_httmSnapFileMount".toList]

/-! ## Helper lemmas -/

section KVLemmas

variable {κ ν : Type} [DecidableEq κ]
@[simp] theorem lookupKV_nil (k : κ) : lookupKV ([] : List (κ × ν)) k = none := rfl

@[simp] theorem lookupKV_cons (p : κ × ν) (l : List (κ × ν)) (k : κ) :
    lookupKV (p :: l) k = if p.1 = k then some p.2 else lookupKV l k := rfl

@[simp] theorem insertKV_nil (e : κ × ν) : insertKV ([] : List (κ × ν)) e = [e] := rfl

@[simp] theorem insertKV_cons (p : κ × ν) (l : List (κ × ν)) (e : κ × ν) :
    insertKV (p :: l) e = if p.1 = e.1 then e :: l else p :: insertKV l e := rfl

@[simp] theorem lastValKV_nil (k : κ) : lastValKV ([] : List (κ × ν)) k = none := rfl

@[simp] theorem lastValKV_cons (p : κ × ν) (l : List (κ × ν)) (k : κ) :
    lastValKV (p :: l) k =
      match lastValKV l k with
      | some v => some v
      | none => if p.1 = k then some p.2 else none := rfl

theorem lookupKV_insertKV (l : List (κ × ν)) (e : κ × ν) (k : κ) :
    lookupKV (insertKV l e) k = if e.1 = k then some e.2 else lookupKV l k := by
  induction l with
  | nil => by_cases hek : e.1 = k <;> simp [hek]
  | cons p rest ih =>
      by_cases hpe : p.1 = e.1
      · rw [insertKV_cons, if_pos hpe]
        by_cases hek : e.1 = k
        · rw [lookupKV_cons, if_pos hek, if_pos hek]
        · have hpk : ¬ p.1 = k := fun h => hek (hpe ▸ h)
          rw [lookupKV_cons, if_neg hek, if_neg hek, lookupKV_cons, if_neg hpk]
      · rw [insertKV_cons, if_neg hpe]
        by_cases hpk : p.1 = k
        · have hek : ¬ e.1 = k := fun h => hpe (by rw [hpk, h])
          rw [lookupKV_cons, if_pos hpk, if_neg hek, lookupKV_cons, if_pos hpk]
        · rw [lookupKV_cons, if_neg hpk, ih]
          by_cases hek : e.1 = k
          · rw [if_pos hek, if_pos hek]
          · rw [if_neg hek, if_neg hek, lookupKV_cons, if_neg hpk]

theorem keys_insertKV (l : List (κ × ν)) (e : κ × ν) (k : κ) :
    k ∈ (insertKV l e).map Prod.fst ↔ k ∈ l.map Prod.fst ∨ k = e.1 := by
  induction l with
  | nil => simp [eq_comm]
  | cons p rest ih =>
      by_cases hpe : p.1 = e.1
      · rw [insertKV_cons, if_pos hpe]
        simp only [List.map_cons, List.mem_cons, hpe]
        tauto
      · rw [insertKV_cons, if_neg hpe]
        simp only [List.map_cons, List.mem_cons]
        rw [ih]
        tauto

theorem nodup_keys_insertKV (l : List (κ × ν)) (e : κ × ν)
    (h : (l.map Prod.fst).Nodup) : ((insertKV l e).map Prod.fst).Nodup := by
  induction l with
  | nil => simp
  | cons p rest ih =>
      simp only [List.map_cons, List.nodup_cons] at h
      by_cases hpe : p.1 = e.1
      · rw [insertKV_cons, if_pos hpe]
        simp only [List.map_cons, List.nodup_cons]
        exact ⟨hpe ▸ h.1, h.2⟩
      · rw [insertKV_cons, if_neg hpe]
        simp only [List.map_cons, List.nodup_cons]
        refine ⟨fun hmem => ?_, ih h.2⟩
        rcases (keys_insertKV rest e p.1).mp hmem with hm | hm
        · exact h.1 hm
        · exact hpe hm

theorem nodup_keys_collectKV_aux (l : List (κ × ν)) :
    ∀ acc : List (κ × ν), (acc.map Prod.fst).Nodup →
      ((l.foldl insertKV acc).map Prod.fst).Nodup := by
  induction l with
  | nil => intro acc h; simpa using h
  | cons p rest ih =>
      intro acc h
      exact ih (insertKV acc p) (nodup_keys_insertKV acc p h)

/-- The map built by `collect()` has no duplicate keys. -/
theorem nodup_keys_collectKV (l : List (κ × ν)) :
    ((collectKV l).map Prod.fst).Nodup :=
  nodup_keys_collectKV_aux l [] List.nodup_nil

theorem mem_insertKV (l : List (κ × ν)) (e p : κ × ν)
    (h : p ∈ insertKV l e) : p ∈ l ∨ p = e := by
  induction l with
  | nil => simpa using h
  | cons q rest ih =>
      by_cases hqe : q.1 = e.1
      · rw [insertKV_cons, if_pos hqe] at h
        rcases List.mem_cons.mp h with h | h
        · exact Or.inr h
        · exact Or.inl (List.mem_cons.mpr (Or.inr h))
      · rw [insertKV_cons, if_neg hqe] at h
        rcases List.mem_cons.mp h with h | h
        · exact Or.inl (List.mem_cons.mpr (Or.inl h))
        · rcases ih h with h' | h'
          · exact Or.inl (List.mem_cons.mpr (Or.inr h'))
          · exact Or.inr h'

theorem mem_collectKV_aux (l : List (κ × ν)) :
    ∀ acc p, p ∈ l.foldl insertKV acc → p ∈ acc ∨ p ∈ l := by
  induction l with
  | nil => intro acc p h; exact Or.inl h
  | cons q rest ih =>
      intro acc p h
      rcases ih (insertKV acc q) p h with h' | h'
      · rcases mem_insertKV acc q p h' with h'' | h''
        · exact Or.inl h''
        · exact Or.inr (List.mem_cons.mpr (Or.inl h''))
      · exact Or.inr (List.mem_cons.mpr (Or.inr h'))

/-- Every entry of the built map is one of the inserted pairs. -/
theorem mem_collectKV (l : List (κ × ν)) (p : κ × ν)
    (h : p ∈ collectKV l) : p ∈ l := by
  rcases mem_collectKV_aux l [] p h with h' | h'
  · cases h'
  · exact h'

theorem lookupKV_foldl_insertKV (l : List (κ × ν)) :
    ∀ acc k, lookupKV (l.foldl insertKV acc) k =
      match lastValKV l k with
      | some v => some v
      | none => lookupKV acc k := by
  induction l with
  | nil => intro acc k; simp
  | cons p rest ih =>
      intro acc k
      rw [List.foldl_cons, ih]
      cases hv : lastValKV rest k with
      | some v => simp [hv]
      | none =>
          simp only [hv, lastValKV_cons]
          rw [lookupKV_insertKV]
          by_cases hpk : p.1 = k <;> simp [hpk]

/-- Looking a key up in the built map returns the value of the *last*
inserted pair with that key. -/
theorem lookupKV_collectKV (l : List (κ × ν)) (k : κ) :
    lookupKV (collectKV l) k = lastValKV l k := by
  rw [collectKV, lookupKV_foldl_insertKV]
  cases h : lastValKV l k <;> simp

theorem lookupKV_eq_some_of_mem_of_nodup (l : List (κ × ν)) (p : κ × ν)
    (hm : p ∈ l) (hnd : (l.map Prod.fst).Nodup) : lookupKV l p.1 = some p.2 := by
  induction l with
  | nil => cases hm
  | cons q rest ih =>
      simp only [List.map_cons, List.nodup_cons] at hnd
      rcases List.mem_cons.mp hm with h | h
      · subst h; simp
      · have hq : ¬ q.1 = p.1 := by
          intro hcontra
          exact hnd.1 (hcontra ▸ List.mem_map.mpr ⟨p, h, rfl⟩)
        rw [lookupKV_cons, if_neg hq]
        exact ih h hnd.2

theorem mem_of_lookupKV_eq_some (l : List (κ × ν)) (k : κ) (v : ν)
    (h : lookupKV l k = some v) : ∃ p ∈ l, p.1 = k ∧ p.2 = v := by
  induction l with
  | nil => cases h
  | cons q rest ih =>
      by_cases hq : q.1 = k
      · rw [lookupKV_cons, if_pos hq] at h
        exact ⟨q, List.mem_cons.mpr (Or.inl rfl), hq, Option.some.inj h⟩
      · rw [lookupKV_cons, if_neg hq] at h
        rcases ih h with ⟨p, hp, hp1, hp2⟩
        exact ⟨p, List.mem_cons.mpr (Or.inr hp), hp1, hp2⟩

theorem lookupKV_eq_none_of_not_mem (l : List (κ × ν)) (k : κ)
    (h : k ∉ l.map Prod.fst) : lookupKV l k = none := by
  induction l with
  | nil => rfl
  | cons q rest ih =>
      simp only [List.map_cons, List.mem_cons, not_or] at h
      have hq : ¬ q.1 = k := fun hc => h.1 hc.symm
      rw [lookupKV_cons, if_neg hq]
      exact ih h.2

theorem lastValKV_isSome_of_mem (l : List (κ × ν)) (p : κ × ν) (hm : p ∈ l) :
    (lastValKV l p.1).isSome := by
  induction l with
  | nil => cases hm
  | cons q rest ih =>
      rcases List.mem_cons.mp hm with h | h
      · subst h
        cases hv : lastValKV rest p.1 <;> simp [hv]
      · have hs := ih h
        cases hv : lastValKV rest p.1 with
        | none => rw [hv] at hs; cases hs
        | some v => simp [hv]

end KVLemmas
theorem maxByKey_aux {α : Type} (f : α → Nat) (l : List α) (y : α) :
    l.foldl (fun acc x =>
        match acc with
        | none => some x
        | some y => if f y ≤ f x then some x else some y) (some y) =
      match maxByKey f l with
      | none => some y
      | some z => if f y ≤ f z then some z else some y := by
  induction l generalizing y with
  | nil => simp [maxByKey]
  | cons b rest ih =>
      have hb : maxByKey f (b :: rest) =
          match maxByKey f rest with
          | none => some b
          | some z => if f b ≤ f z then some z else some b := by
        show rest.foldl _ (some b) = _
        exact ih b
      rw [List.foldl_cons]
      show rest.foldl _ (if f y ≤ f b then some b else some y) = _
      by_cases hyb : f y ≤ f b
      · rw [if_pos hyb, ih b, hb]
        cases hz : maxByKey f rest with
        | none => simp [hyb]
        | some z =>
            by_cases hbz : f b ≤ f z
            · simp [hbz, le_trans hyb hbz]
            · simp [hbz, hyb]
      · rw [if_neg hyb, ih y, hb]
        cases hz : maxByKey f rest with
        | none => simp [hyb]
        | some z =>
            by_cases hbz : f b ≤ f z
            · simp [hbz]
            · have hyz : ¬ f y ≤ f z := fun hc =>
                hyb (le_trans hc (le_of_not_le hbz))
              simp [hbz, hyz, hyb]

theorem maxByKey_spec {α : Type} (f : α → Nat) (l : List α) (hne : l ≠ []) :
    ∃ m, maxByKey f l = some m ∧ m ∈ l ∧ ∀ x ∈ l, f x ≤ f m := by
  induction l with
  | nil => cases hne rfl
  | cons a rest ih =>
      rcases eq_or_ne rest [] with hr | hr
      · subst hr
        refine ⟨a, rfl, List.mem_singleton.mpr rfl, ?_⟩
        intro x hx
        rw [List.mem_singleton.mp hx]
      · rcases ih hr with ⟨m, hm, hmem, hmax⟩
        have : maxByKey f (a :: rest) =
            match maxByKey f rest with
            | none => some a
            | some z => if f a ≤ f z then some z else some a := by
          show rest.foldl _ (some a) = _
          exact maxByKey_aux f rest a
        rw [this, hm]
        by_cases ham : f a ≤ f m
        · refine ⟨m, by simp [ham], List.mem_cons.mpr (Or.inr hmem), ?_⟩
          intro x hx
          rcases List.mem_cons.mp hx with h | h
          · exact h ▸ ham
          · exact hmax x h
        · refine ⟨a, by simp [ham], List.mem_cons.mpr (Or.inl rfl), ?_⟩
          intro x hx
          rcases List.mem_cons.mp hx with h | h
          · exact h ▸ le_refl _
          · exact le_trans (hmax x h) (le_of_not_le ham)

theorem mapE_ok_mem {α β : Type} (l : List α) (f : α → Except HttmError β)
    (ys : List β) (h : mapE l f = .ok ys) :
    ∀ y ∈ ys, ∃ x ∈ l, f x = .ok y := by
  induction l generalizing ys with
  | nil =>
      cases h
      intro y hy
      cases hy
  | cons a rest ih =>
      simp only [mapE] at h
      cases hfa : f a with
      | error e => rw [hfa] at h; cases h
      | ok b =>
          rw [hfa] at h
          cases hrest : mapE rest f with
          | error e => rw [hrest] at h; cases h
          | ok bs =>
              rw [hrest] at h
              cases h
              intro y hy
              rcases List.mem_cons.mp hy with h | h
              · exact ⟨a, List.mem_cons.mpr (Or.inl rfl), h ▸ hfa⟩
              · rcases ih bs hrest y h with ⟨x, hx, hfx⟩
                exact ⟨x, List.mem_cons.mpr (Or.inr hx), hfx⟩

/-! ## Claim theorems -/

theorem get_immediate_dataset_def (pathdata : PathData)
    (mount_collection : List (FsPath × Name × FilesystemType)) :
    get_immediate_dataset pathdata mount_collection =
      (let potential := (mount_collection.map Prod.fst).filter
          (fun mount => decide (mount <+: pathdata.path_buf))
       if potential.isEmpty then Except.error noDatasetError
       else
         match maxByKey osLen potential with
         | some best => Except.ok best
         | none => Except.error noBestMatchError) := rfl

/-- C1: for every input path, when at least one mount point of the mount
map is a component-wise ancestor of the path, dataset resolution returns
an ancestor mount point of greatest byte length; when none is an
ancestor, it returns the `NoDataset` error instead of a mount. -/
theorem c1_immediate_dataset_resolution (pathdata : PathData)
    (mount_collection : List (FsPath × Name × FilesystemType)) :
    ((∃ m ∈ mount_collection.map Prod.fst, m <+: pathdata.path_buf) →
      ∃ m, get_immediate_dataset pathdata mount_collection = .ok m ∧
        m ∈ mount_collection.map Prod.fst ∧ m <+: pathdata.path_buf ∧
        ∀ m' ∈ mount_collection.map Prod.fst, m' <+: pathdata.path_buf →
          osLen m' ≤ osLen m) ∧
    ((¬ ∃ m ∈ mount_collection.map Prod.fst, m <+: pathdata.path_buf) →
      get_immediate_dataset pathdata mount_collection = .error noDatasetError) := by
  constructor
  · rintro ⟨m0, hm0, hpre0⟩
    have hmem : m0 ∈ (mount_collection.map Prod.fst).filter
        (fun mount => decide (mount <+: pathdata.path_buf)) :=
      List.mem_filter.mpr ⟨hm0, by simpa using hpre0⟩
    have hne : (mount_collection.map Prod.fst).filter
        (fun mount => decide (mount <+: pathdata.path_buf)) ≠ [] :=
      List.ne_nil_of_mem hmem
    rcases maxByKey_spec osLen _ hne with ⟨m, hmax, hmmem, hall⟩
    have hmem' := List.mem_filter.mp hmmem
    refine ⟨m, ?_, hmem'.1, by simpa using hmem'.2, ?_⟩
    · rw [get_immediate_dataset_def]
      simp only [List.isEmpty_iff, hne, if_false, hmax]
    · intro m' hm' hpre'
      exact hall m' (List.mem_filter.mpr ⟨hm', by simpa using hpre'⟩)
  · intro hno
    have hnil : (mount_collection.map Prod.fst).filter
        (fun mount => decide (mount <+: pathdata.path_buf)) = [] := by
      rw [List.filter_eq_nil_iff]
      intro m hm
      simp only [decide_eq_true_eq]
      exact fun hpre => hno ⟨m, hm, hpre⟩
    rw [get_immediate_dataset_def]
    simp only [hnil, List.isEmpty_nil, if_true]

/-- C1 witness at scenario S1: the proximate mount of `/home/alice/x.txt`
resolves among the ancestors `/` and `/home`. -/
theorem c1_immediate_dataset_resolution_witness :
    ∃ m, get_immediate_dataset pdS1 mapS1 = .ok m ∧
      m ∈ mapS1.map Prod.fst ∧ m <+: pdS1.path_buf ∧
      ∀ m' ∈ mapS1.map Prod.fst, m' <+: pdS1.path_buf → osLen m' ≤ osLen m :=
  (c1_immediate_dataset_resolution pdS1 mapS1).1 ⟨["home"], by decide, by decide⟩

theorem get_alt_replicated_datasets_def (immediate_dataset_mount : FsPath)
    (mount_collection : List (FsPath × Name × FilesystemType)) (N : Name)
    (ft : FilesystemType)
    (hlk : lookupKV mount_collection immediate_dataset_mount = some (N, ft)) :
    get_alt_replicated_datasets immediate_dataset_mount mount_collection =
      (let alts := ((mount_collection.filter (fun e =>
          decide (¬ e.2.1 = N ∧ N <:+ e.2.1))).map Prod.fst)
       if alts.isEmpty then Except.error noAltReplicaError
       else Except.ok ⟨immediate_dataset_mount, List.insertionSort pathLenLe alts⟩) := by
  unfold get_alt_replicated_datasets
  rw [hlk]

/-- C3: for every mount with dataset name N, the alternate-replica set is
exactly the set of mounts whose dataset name properly suffix-extends N,
sorted ascending by mount-path byte length; it never contains the
proximate mount itself, and when the set is empty the lookup returns the
`NoAltReplica` error rather than an empty list. -/
theorem c3_alt_replicated_datasets (immediate_dataset_mount : FsPath)
    (mount_collection : List (FsPath × Name × FilesystemType))
    (N : Name) (ft : FilesystemType)
    (hnd : (mount_collection.map Prod.fst).Nodup)
    (hlk : lookupKV mount_collection immediate_dataset_mount = some (N, ft)) :
    (∀ ds, get_alt_replicated_datasets immediate_dataset_mount mount_collection = .ok ds →
      (∀ m, m ∈ ds.datasets_of_interest ↔
        ∃ n t, (m, n, t) ∈ mount_collection ∧ ¬ n = N ∧ N <:+ n) ∧
      List.Sorted pathLenLe ds.datasets_of_interest ∧
      immediate_dataset_mount ∉ ds.datasets_of_interest) ∧
    ((¬ ∃ m n t, (m, n, t) ∈ mount_collection ∧ ¬ n = N ∧ N <:+ n) →
      get_alt_replicated_datasets immediate_dataset_mount mount_collection =
        .error noAltReplicaError) := by
  have hmem_alts : ∀ m, m ∈ ((mount_collection.filter (fun e =>
      decide (¬ e.2.1 = N ∧ N <:+ e.2.1))).map Prod.fst) ↔
      ∃ n t, (m, n, t) ∈ mount_collection ∧ ¬ n = N ∧ N <:+ n := by
    intro m
    constructor
    · intro hm
      rcases List.mem_map.mp hm with ⟨e, he, hfst⟩
      have he' := List.mem_filter.mp he
      rcases e with ⟨m', n, t⟩
      cases hfst
      refine ⟨n, t, he'.1, ?_⟩
      simpa using he'.2
    · rintro ⟨n, t, hmem, hne, hsuf⟩
      exact List.mem_map.mpr ⟨(m, n, t),
        List.mem_filter.mpr ⟨hmem, by simpa using ⟨hne, hsuf⟩⟩, rfl⟩
  constructor
  · intro ds hok
    rw [get_alt_replicated_datasets_def immediate_dataset_mount mount_collection N ft hlk]
      at hok
    by_cases hE : ((mount_collection.filter (fun e =>
        decide (¬ e.2.1 = N ∧ N <:+ e.2.1))).map Prod.fst).isEmpty
    · rw [if_pos hE] at hok
      cases hok
    · rw [if_neg hE] at hok
      cases hok
      refine ⟨?_, List.sorted_insertionSort pathLenLe _, ?_⟩
      · intro m
        rw [List.Perm.mem_iff (List.perm_insertionSort pathLenLe _)]
        exact hmem_alts m
      · intro hcontra
        rw [List.Perm.mem_iff (List.perm_insertionSort pathLenLe _)] at hcontra
        rcases (hmem_alts immediate_dataset_mount).mp hcontra with ⟨n, t, hmem, hne, _⟩
        have := lookupKV_eq_some_of_mem_of_nodup mount_collection
          (immediate_dataset_mount, n, t) hmem hnd
        rw [hlk] at this
        exact hne (congrArg Prod.fst (Option.some.inj this)).symm
  · intro hno
    have hnil : (mount_collection.filter (fun e =>
        decide (¬ e.2.1 = N ∧ N <:+ e.2.1))) = [] := by
      rw [List.filter_eq_nil_iff]
      rintro ⟨m, n, t⟩ hm
      simp only [decide_eq_true_eq, not_and]
      intro hne hsuf
      exact hno ⟨m, n, t, hm, hne, hsuf⟩
    rw [get_alt_replicated_datasets_def immediate_dataset_mount mount_collection N ft hlk]
    simp only [hnil, List.map_nil, List.isEmpty_nil, if_true]

/-- C3 witness at scenario S2: the alternates of `/home`
(dataset rpool/home) in the S2 table. -/
theorem c3_alt_replicated_datasets_witness :
    (∀ ds, get_alt_replicated_datasets ["home"] mapS2 = .ok ds →
      (∀ m, m ∈ ds.datasets_of_interest ↔
        ∃ n t, (m, n, t) ∈ mapS2 ∧ ¬ n = "rpool/home".toList ∧
          "rpool/home".toList <:+ n) ∧
      List.Sorted pathLenLe ds.datasets_of_interest ∧
      (["home"] : FsPath) ∉ ds.datasets_of_interest) ∧
    ((¬ ∃ m n t, (m, n, t) ∈ mapS2 ∧ ¬ n = "rpool/home".toList ∧
        "rpool/home".toList <:+ n) →
      get_alt_replicated_datasets ["home"] mapS2 = .error noAltReplicaError) :=
  c3_alt_replicated_datasets ["home"] mapS2 ("rpool/home".toList)
    FilesystemType.zfs (by decide) (by decide)

theorem alt_replicated_immediate (immediate_dataset_mount : FsPath)
    (mount_collection : List (FsPath × Name × FilesystemType))
    (ds : DatasetsForSearch)
    (h : get_alt_replicated_datasets immediate_dataset_mount mount_collection = .ok ds) :
    ds.immediate_dataset_mount = immediate_dataset_mount := by
  unfold get_alt_replicated_datasets at h
  split at h
  · cases h
  · simp only [] at h
    split at h
    · cases h
    · cases h
      rfl

theorem datasets_immediate_ok (config : Config) (file_pathdata : PathData)
    (requested_dataset_type : NativeDatasetType) (native_datasets : NativeDatasets)
    (dc : DatasetsForSearch)
    (hsp : config.snap_point = SnapPoint.native native_datasets)
    (hdc : datasets_for_search_of config file_pathdata requested_dataset_type = .ok dc) :
    get_immediate_dataset file_pathdata native_datasets.map_of_datasets =
      .ok dc.immediate_dataset_mount := by
  unfold datasets_for_search_of at hdc
  split at hdc
  · next defined_dirs heq =>
      rw [hsp] at heq
      cases heq
  · next native_datasets' heq =>
      rw [hsp] at heq
      cases heq
      split at hdc
      · cases hdc
      · next imm him =>
          split at hdc
          · cases hdc
            exact him
          · split at hdc
            · next map_of_alts hma =>
                split at hdc
                · cases hdc
                  exact him
                · rw [alt_replicated_immediate _ _ _ hdc]
                  exact him
            · rw [alt_replicated_immediate _ _ _ hdc]
              exact him

/-- C2: for every search bundle built for any dataset of interest
(including alternate replicas), the bundle's relative path equals the
input path with the proximate (immediate) dataset mount stripped as
prefix — or, under a user-defined snap point, with the alias's
`local_dir` stripped — and never by stripping the dataset of interest
itself. -/
theorem c2_relative_path_strips_proximate (config : Config)
    (file_pathdata : PathData) (requested_dataset_type : NativeDatasetType)
    (bundles : List SearchBundle)
    (hok : get_search_bundle config file_pathdata requested_dataset_type = .ok bundles) :
    (∀ defined_dirs, config.snap_point = SnapPoint.userDefined defined_dirs →
      ∀ sb ∈ bundles,
        stripPre file_pathdata.path_buf defined_dirs.local_dir = .ok sb.relative_path) ∧
    (∀ native_datasets, config.snap_point = SnapPoint.native native_datasets →
      ∃ imm,
        get_immediate_dataset file_pathdata native_datasets.map_of_datasets = .ok imm ∧
        ∀ sb ∈ bundles,
          stripPre file_pathdata.path_buf imm = .ok sb.relative_path) := by
  unfold get_search_bundle at hok
  cases hdc : datasets_for_search_of config file_pathdata requested_dataset_type with
  | error e => rw [hdc] at hok; cases hok
  | ok dc =>
      rw [hdc] at hok
      constructor
      · intro defined_dirs hsp sb hsb
        rcases mapE_ok_mem _ _ _ hok sb hsb with ⟨d, _, hbd⟩
        unfold bundle_of at hbd
        split at hbd
        · next dd' heq =>
            rw [hsp] at heq
            cases heq
            cases hstrip : stripPre file_pathdata.path_buf defined_dirs.local_dir with
            | error e =>
                rw [hstrip] at hbd
                cases hbd
            | ok rel =>
                rw [hstrip] at hbd
                cases hbd
                rfl
        · next nd' heq =>
            rw [hsp] at heq
            cases heq
      · intro native_datasets hsp
        refine ⟨dc.immediate_dataset_mount,
          datasets_immediate_ok config file_pathdata requested_dataset_type
            native_datasets dc hsp hdc, ?_⟩
        intro sb hsb
        rcases mapE_ok_mem _ _ _ hok sb hsb with ⟨d, _, hbd⟩
        unfold bundle_of at hbd
        split at hbd
        · next dd' heq =>
            rw [hsp] at heq
            cases heq
        · next nd' heq =>
            rw [hsp] at heq
            cases heq
            cases hstrip : stripPre file_pathdata.path_buf
                dc.immediate_dataset_mount with
            | error e =>
                rw [hstrip] at hbd
                cases hbd
            | ok rel =>
                rw [hstrip] at hbd
                cases hbd
                rfl

/-- C2 witness: under the native S1 table, the single MostImmediate bundle
for `/home/alice/x.txt` strips the proximate mount `/home`. -/
theorem c2_relative_path_strips_proximate_witness :
    (∀ defined_dirs, cfgW2.snap_point = SnapPoint.userDefined defined_dirs →
      ∀ sb ∈ bundlesW2,
        stripPre pdS1.path_buf defined_dirs.local_dir = .ok sb.relative_path) ∧
    (∀ native_datasets, cfgW2.snap_point = SnapPoint.native native_datasets →
      ∃ imm,
        get_immediate_dataset pdS1 native_datasets.map_of_datasets = .ok imm ∧
        ∀ sb ∈ bundlesW2,
          stripPre pdS1.path_buf imm = .ok sb.relative_path) :=
  c2_relative_path_strips_proximate cfgW2 pdS1 NativeDatasetType.mostImmediate
    bundlesW2 (by decide)

theorem pairwise_ne_key_of_nodup {α κ' : Type} [DecidableEq κ']
    (key : α → κ') (m : List (κ' × α))
    (hnd : (m.map Prod.fst).Nodup) (hk : ∀ p ∈ m, p.1 = key p.2) :
    (m.map Prod.snd).Pairwise (fun a b => key a ≠ key b) := by
  induction m with
  | nil => simp
  | cons p rest ih =>
      simp only [List.map_cons, List.nodup_cons] at hnd
      simp only [List.map_cons, List.pairwise_cons]
      constructor
      · intro b hb hkey
        rcases List.mem_map.mp hb with ⟨q, hq, hq2⟩
        have hp := hk p (List.mem_cons_self p rest)
        have hqk := hk q (List.mem_cons.mpr (Or.inr hq))
        have hpq : p.1 = q.1 := by rw [hp, hkey, ← hq2, ← hqk]
        exact hnd.1 (hpq ▸ List.mem_map.mpr ⟨q, hq, rfl⟩)
      · exact ih hnd.2 (fun q hq => hk q (List.mem_cons.mpr (Or.inr hq)))

theorem unique_versions_explicit (fs : Fs) (config : Config) (sb : SearchBundle)
    (nd : NativeDatasets) (ms : List (FsPath × List FsPath)) (mounts : List FsPath)
    (hsp : config.snap_point = SnapPoint.native nd)
    (hms : nd.map_of_snaps = some ms)
    (hsm : sb.snapshot_mounts = some mounts) :
    unique_versions_of fs config sb =
      .ok (collectKV ((snap_observations fs mounts sb.relative_path).map
        (fun pd => (versionKey pd, pd)))) := by
  unfold unique_versions_of
  split
  · next nd' heq =>
      rw [hsp] at heq
      cases heq
      split
      · next heq2 =>
          split
          · next mounts' heq3 =>
              rw [hsm] at heq3
              cases heq3
              rfl
          · next heq3 =>
              rw [hsm] at heq3
              cases heq3
      · next heq2 =>
          rw [hms] at heq2
          cases heq2
  · next dd heq =>
      rw [hsp] at heq
      cases heq

/-- C4 (amended): the per-SearchBundle output of the version enumerator is
non-decreasing in modify time.  (The merged flattened list is a plain
concatenation of such per-bundle lists and is *not* globally sorted; see
the counterexample.) -/
theorem c4_per_dataset_sorted (fs : Fs) (config : Config) (sb : SearchBundle)
    (out : List PathData) (hok : get_versions_per_dataset fs config sb = .ok out) :
    out.Pairwise timeLe := by
  unfold get_versions_per_dataset at hok
  cases huv : unique_versions_of fs config sb with
  | error e => rw [huv] at hok; cases hok
  | ok uv =>
      rw [huv] at hok
      cases hok
      exact List.sorted_insertionSort timeLe _

/-- C4 witness: two versions of `/home/f` observed newest-first come back
sorted ascending by mtime. -/
theorem c4_per_dataset_sorted_witness :
    ([⟨homeSnapB ++ ["f"], 100, 1, false⟩, ⟨homeSnapA ++ ["f"], 200, 1, false⟩] :
      List PathData).Pairwise timeLe :=
  c4_per_dataset_sorted fsTwo cfgHome sbHome
    [⟨homeSnapB ++ ["f"], 100, 1, false⟩, ⟨homeSnapA ++ ["f"], 200, 1, false⟩]
    (by decide)

/-- C4 counterexample: with alternate-replica search on, the merged list
flattened across the candidate datasets of `/home/f` is the alternate's
versions followed by the proximate's — [200, 100] — which is not
non-decreasing in mtime. -/
theorem c4_counterexample :
    (get_all_snap_versions fsRepl cfgRepl [pdRepl]
        (selected_datasets_of cfgRepl)).map (fun pd => pd.system_time) =
      [200, 100] ∧
    ¬ (get_all_snap_versions fsRepl cfgRepl [pdRepl]
        (selected_datasets_of cfgRepl)).Pairwise timeLe := by
  constructor
  · decide
  · decide

/-- C5 (amended): in the version list produced for a search bundle with
explicit snapshot mounts, no two returned versions share the same
`(mtime, size)` key; every returned record is the *last* observation of
its key in snapshot-mount iteration order (the Rust `HashMap` `collect`
replaces on duplicate keys, so the first observation is dropped, not
kept); and every observed key is represented. -/
theorem c5_dedup_by_key_last_kept (fs : Fs) (config : Config) (sb : SearchBundle)
    (nd : NativeDatasets) (ms : List (FsPath × List FsPath)) (mounts : List FsPath)
    (out : List PathData)
    (hsp : config.snap_point = SnapPoint.native nd)
    (hms : nd.map_of_snaps = some ms)
    (hsm : sb.snapshot_mounts = some mounts)
    (hok : get_versions_per_dataset fs config sb = .ok out) :
    out.Pairwise (fun a b => versionKey a ≠ versionKey b) ∧
    (∀ pd ∈ out,
      lastObservation (snap_observations fs mounts sb.relative_path)
        (versionKey pd) = some pd) ∧
    (∀ o ∈ snap_observations fs mounts sb.relative_path,
      ∃ pd ∈ out, versionKey pd = versionKey o) := by
  unfold get_versions_per_dataset at hok
  rw [unique_versions_explicit fs config sb nd ms mounts hsp hms hsm] at hok
  cases hok
  have hkeys : ∀ p ∈ collectKV ((snap_observations fs mounts
      sb.relative_path).map (fun pd => (versionKey pd, pd))),
      p.1 = versionKey p.2 := by
    intro p hp
    have hmem := mem_collectKV _ p hp
    rcases List.mem_map.mp hmem with ⟨pd, _, hpd⟩
    rw [← hpd]
  have hnd := nodup_keys_collectKV ((snap_observations fs mounts
      sb.relative_path).map (fun pd => (versionKey pd, pd)))
  have hperm : List.Perm
      (List.insertionSort timeLe ((collectKV ((snap_observations fs mounts
        sb.relative_path).map (fun pd => (versionKey pd, pd)))).map Prod.snd))
      ((collectKV ((snap_observations fs mounts
        sb.relative_path).map (fun pd => (versionKey pd, pd)))).map Prod.snd) :=
    List.perm_insertionSort _ _
  refine ⟨?_, ?_, ?_⟩
  · exact (hperm.pairwise_iff (fun h heq => h heq.symm)).mpr
      (pairwise_ne_key_of_nodup versionKey _ hnd hkeys)
  · intro pd hpd
    have hmem : pd ∈ (collectKV ((snap_observations fs mounts
        sb.relative_path).map (fun pd => (versionKey pd, pd)))).map Prod.snd :=
      hperm.mem_iff.mp hpd
    rcases List.mem_map.mp hmem with ⟨p, hp, hp2⟩
    have hlkup := lookupKV_eq_some_of_mem_of_nodup _ p hp hnd
    rw [lookupKV_collectKV] at hlkup
    have hk := hkeys p hp
    show lastValKV _ _ = _
    rw [← hp2, ← hk, hlkup]
  · intro o ho
    have hmem : (versionKey o, o) ∈ (snap_observations fs mounts
        sb.relative_path).map (fun pd => (versionKey pd, pd)) :=
      List.mem_map.mpr ⟨o, ho, rfl⟩
    have hs := lastValKV_isSome_of_mem _ (versionKey o, o) hmem
    cases hv : lastValKV ((snap_observations fs mounts
        sb.relative_path).map (fun pd => (versionKey pd, pd))) (versionKey o) with
    | none => rw [hv] at hs; cases hs
    | some v =>
        have hlkup : lookupKV (collectKV ((snap_observations fs mounts
            sb.relative_path).map (fun pd => (versionKey pd, pd))))
            (versionKey o) = some v := by
          rw [lookupKV_collectKV, hv]
        rcases mem_of_lookupKV_eq_some _ _ _ hlkup with ⟨p, hp, hp1, hp2⟩
        refine ⟨v, ?_, ?_⟩
        · exact hperm.mem_iff.mpr (List.mem_map.mpr ⟨p, hp, hp2⟩)
        · rw [← hp2, ← hkeys p hp, hp1]

/-- C5 witness: two snapshots of `/home/f` with identical `(mtime, size)`
collapse to the single last-observed record. -/
theorem c5_dedup_by_key_last_kept_witness :
    (([⟨homeSnapB ++ ["f"], 100, 5, false⟩] : List PathData).Pairwise
      (fun a b => versionKey a ≠ versionKey b)) ∧
    (∀ pd ∈ ([⟨homeSnapB ++ ["f"], 100, 5, false⟩] : List PathData),
      lastObservation (snap_observations fsDup [homeSnapA, homeSnapB]
        sbHome.relative_path) (versionKey pd) = some pd) ∧
    (∀ o ∈ snap_observations fsDup [homeSnapA, homeSnapB] sbHome.relative_path,
      ∃ pd ∈ ([⟨homeSnapB ++ ["f"], 100, 5, false⟩] : List PathData),
        versionKey pd = versionKey o) :=
  c5_dedup_by_key_last_kept fsDup cfgHome sbHome
    ⟨mapHome, some [(["home"], [homeSnapA, homeSnapB])], none⟩
    [(["home"], [homeSnapA, homeSnapB])] [homeSnapA, homeSnapB]
    [⟨homeSnapB ++ ["f"], 100, 5, false⟩]
    (by decide) (by decide) (by decide) (by decide)

/-- C5 counterexample: two snapshot instances of `/home/f` observed with
the same `(mtime, size)` key in the order snapA then snapB: the record
kept is the *second* (snapB) observation, so the first-observed record is
not the one kept. -/
theorem c5_counterexample :
    snap_observations fsDup [homeSnapA, homeSnapB] ["f"] =
      [⟨homeSnapA ++ ["f"], 100, 5, false⟩, ⟨homeSnapB ++ ["f"], 100, 5, false⟩] ∧
    get_versions_per_dataset fsDup cfgHome sbHome =
      .ok [⟨homeSnapB ++ ["f"], 100, 5, false⟩] := by
  constructor
  · decide
  · decide

theorem takeWhile_append_all {α : Type} (p : α → Bool) (l r : List α)
    (h : ∀ a ∈ l, p a = true) :
    (l ++ r).takeWhile p = l ++ r.takeWhile p := by
  induction l with
  | nil => simp
  | cons a rest ih =>
      have ha := h a (List.mem_cons_self a rest)
      simp only [List.cons_append, List.takeWhile_cons, ha, if_true]
      rw [ih (fun b hb => h b (List.mem_cons.mpr (Or.inr hb)))]

theorem takeWhile_append_stop {α : Type} (p : α → Bool) (l r : List α)
    (h : ∃ a ∈ l, p a = false) :
    (l ++ r).takeWhile p = l.takeWhile p := by
  induction l with
  | nil =>
      rcases h with ⟨a, ha, _⟩
      cases ha
  | cons a rest ih =>
      cases hpa : p a with
      | true =>
          simp only [List.cons_append, List.takeWhile_cons, hpa, if_true]
          rcases h with ⟨b, hb, hpb⟩
          rcases List.mem_cons.mp hb with hba | hb'
          · rw [hba] at hpb
            rw [hpb] at hpa
            cases hpa
          · rw [ih ⟨b, hb', hpb⟩]
      | false =>
          simp only [List.cons_append, List.takeWhile_cons, hpa]
          simp

theorem mem_make_snapshot_name_at (d T : Name) :
    '@' ∈ make_snapshot_name d T := by
  unfold make_snapshot_name
  refine List.mem_append.mpr (Or.inl (List.mem_append.mpr (Or.inl
    (List.mem_append.mpr (Or.inr ?_)))))
  decide

theorem pool_of_make_of_slash (d T : Name) (hd : '/' ∈ d) :
    pool_of (make_snapshot_name d T) = pool_of d := by
  unfold pool_of make_snapshot_name
  rw [List.append_assoc, List.append_assoc]
  exact takeWhile_append_stop _ d _ ⟨'/', hd, by decide⟩

theorem pool_of_make_of_noslash (d T : Name) (hd : '/' ∉ d) (hT : '/' ∉ T) :
    pool_of (make_snapshot_name d T) = make_snapshot_name d T := by
  unfold pool_of
  rw [List.takeWhile_eq_self_iff]
  intro c hc
  simp only [decide_eq_true_eq]
  intro hcs
  subst hcs
  unfold make_snapshot_name at hc
  rcases List.mem_append.mp hc with hc1 | hc4
  · rcases List.mem_append.mp hc1 with hc2 | hc3
    · rcases List.mem_append.mp hc2 with hcd | hcat
      · exact hd hcd
      · exact absurd hcat (by decide)
    · exact hT hc3
  · exact absurd hc4 (by decide)

theorem dataset_of_make (d T : Name) (hd : '@' ∉ d) :
    (make_snapshot_name d T).takeWhile (fun c => decide (¬ c = '@')) = d := by
  unfold make_snapshot_name
  rw [List.append_assoc, List.append_assoc]
  rw [takeWhile_append_all _ d _ (fun a ha => by
    simp only [decide_eq_true_eq]
    intro hcs
    subst hcs
    exact hd ha)]
  have : (("@snap_".toList ++ (T ++ "_httmSnapFileMount".toList)) :
      List Char).takeWhile (fun c => decide (¬ c = '@')) = [] := rfl
  rw [this, List.append_nil]

theorem claim_pool_eq (d₁ d₂ T : Name)
    (h1 : '@' ∉ d₁) (h2 : '@' ∉ d₂) (hT : '/' ∉ T)
    (heq : pool_of (make_snapshot_name d₁ T) = pool_of (make_snapshot_name d₂ T)) :
    pool_of d₁ = pool_of d₂ := by
  by_cases hs1 : '/' ∈ d₁ <;> by_cases hs2 : '/' ∈ d₂
  · rw [pool_of_make_of_slash d₁ T hs1, pool_of_make_of_slash d₂ T hs2] at heq
    exact heq
  · exfalso
    rw [pool_of_make_of_slash d₁ T hs1, pool_of_make_of_noslash d₂ T hs2 hT] at heq
    have hatL : '@' ∉ pool_of d₁ := fun hc =>
      h1 ((List.takeWhile_sublist _).subset hc)
    rw [heq] at hatL
    exact hatL (mem_make_snapshot_name_at d₂ T)
  · exfalso
    rw [pool_of_make_of_noslash d₁ T hs1 hT, pool_of_make_of_slash d₂ T hs2] at heq
    have hatL : '@' ∉ pool_of d₂ := fun hc =>
      h2 ((List.takeWhile_sublist _).subset hc)
    rw [← heq] at hatL
    exact hatL (mem_make_snapshot_name_at d₁ T)
  · rw [pool_of_make_of_noslash d₁ T hs1 hT, pool_of_make_of_noslash d₂ T hs2 hT] at heq
    have hd : d₁ = d₂ := by
      unfold make_snapshot_name at heq
      exact List.append_cancel_right (List.append_cancel_right
        (List.append_cancel_right heq))
    rw [hd]

theorem names_are_make (config : SnapConfig)
    (mounts_for_files : List (PathData × List PathData)) (timestamp : Name)
    (names : List Name)
    (hok : vec_snapshot_names config mounts_for_files timestamp = .ok names) :
    ∀ n ∈ names, ∃ p ∈ config.map_of_datasets,
      n = make_snapshot_name p.2.name timestamp := by
  intro n hn
  rcases mapE_ok_mem _ _ _ hok n hn with ⟨mount, _, hf⟩
  cases ha : config.opt_map_of_aliases with
  | some al => rw [ha] at hf; cases hf
  | none =>
      rw [ha] at hf
      cases hlk : lookupKV config.map_of_datasets mount.path_buf with
      | none => rw [hlk] at hf; cases hf
      | some di =>
          rw [hlk] at hf
          dsimp only at hf
          by_cases hz : di.fs_type = FilesystemType.zfs
          · rw [if_pos hz] at hf
            rcases mem_of_lookupKV_eq_some _ _ _ hlk with ⟨p, hp, _, hp2⟩
            refine ⟨p, hp, ?_⟩
            rw [hp2]
            exact (Except.ok.inj hf).symm
          · rw [if_neg hz] at hf
            cases hf

theorem dedupAdj_sublist {α : Type} [DecidableEq α] :
    ∀ l : List α, List.Sublist (dedupAdj l) l
  | [] => by
      unfold dedupAdj
      exact List.Sublist.refl []
  | [a] => by
      unfold dedupAdj
      exact List.Sublist.refl [a]
  | a :: b :: rest => by
      unfold dedupAdj
      by_cases hab : a = b
      · rw [if_pos hab]
        exact (dedupAdj_sublist (b :: rest)).cons a
      · rw [if_neg hab]
        exact (dedupAdj_sublist (b :: rest)).cons₂ a

theorem nodup_dedupAdj_of_sorted :
    ∀ l : List Name, l.Pairwise (fun a b : Name => a ≤ b) → (dedupAdj l).Nodup
  | [], _ => by
      unfold dedupAdj
      exact List.nodup_nil
  | [a], _ => by
      unfold dedupAdj
      simp
  | a :: b :: rest, h => by
      have h1 := List.pairwise_cons.mp h
      unfold dedupAdj
      by_cases hab : a = b
      · rw [if_pos hab]
        exact nodup_dedupAdj_of_sorted (b :: rest) h1.2
      · rw [if_neg hab]
        refine List.nodup_cons.mpr ⟨?_, nodup_dedupAdj_of_sorted (b :: rest) h1.2⟩
        intro hmem
        have hmem' : a ∈ b :: rest := (dedupAdj_sublist (b :: rest)).subset hmem
        rcases List.mem_cons.mp hmem' with h' | h'
        · exact hab h'
        · have hba : b ≤ a := (List.pairwise_cons.mp h1.2).1 a h'
          have hab' : a ≤ b := h1.1 b (List.mem_cons_self b rest)
          exact hab (le_antisymm hab' hba)

/-- C7: every snapshot-utility invocation built by take_snapshot passes,
after the literal `"snapshot"`, a list of names whose pool prefixes (the
code's group key, and also the dataset-name prefix before the first `/`)
all agree, lexicographically sorted and free of duplicates.  The
hypotheses reflect ZFS naming: the formatted timestamp contains no `/`,
and dataset names contain no `@`. -/
theorem c7_pool_groups (config : SnapConfig)
    (mounts_for_files : List (PathData × List PathData)) (timestamp : Name)
    (names : List Name)
    (hok : vec_snapshot_names config mounts_for_files timestamp = .ok names)
    (hT : '/' ∉ timestamp)
    (hD : ∀ p ∈ config.map_of_datasets, '@' ∉ p.2.name) :
    ∀ g ∈ map_snapshot_names names,
      process_args g.2 = "snapshot".toList :: g.2 ∧
      (∀ n ∈ g.2, pool_of n = g.1) ∧
      (∀ n₁ ∈ g.2, ∀ n₂ ∈ g.2,
        ∃ p₁ ∈ config.map_of_datasets, ∃ p₂ ∈ config.map_of_datasets,
          n₁ = make_snapshot_name p₁.2.name timestamp ∧
          n₂ = make_snapshot_name p₂.2.name timestamp ∧
          pool_of p₁.2.name = pool_of p₂.2.name) ∧
      List.Sorted (fun a b : Name => a ≤ b) g.2 ∧ g.2.Nodup := by
  intro g hg
  unfold map_snapshot_names at hg
  rcases List.mem_map.mp hg with ⟨pool, _, hgdef⟩
  cases hgdef
  have hmemsub : ∀ n ∈ dedupAdj (List.insertionSort (fun a b : Name => a ≤ b)
      (names.filter (fun n => decide (pool_of n = pool)))),
      n ∈ names.filter (fun n => decide (pool_of n = pool)) := by
    intro n hn
    exact (List.perm_insertionSort (fun a b : Name => a ≤ b) _).subset
      ((dedupAdj_sublist _).subset hn)
  refine ⟨rfl, ?_, ?_, ?_, ?_⟩
  · intro n hn
    have hmem := List.mem_filter.mp (hmemsub n hn)
    simpa using hmem.2
  · intro n₁ hn₁ n₂ hn₂
    have hf₁ := List.mem_filter.mp (hmemsub n₁ hn₁)
    have hf₂ := List.mem_filter.mp (hmemsub n₂ hn₂)
    have hp₁ : pool_of n₁ = pool := by simpa using hf₁.2
    have hp₂ : pool_of n₂ = pool := by simpa using hf₂.2
    rcases names_are_make config mounts_for_files timestamp names hok n₁ hf₁.1
      with ⟨p₁, hpm₁, hm₁⟩
    rcases names_are_make config mounts_for_files timestamp names hok n₂ hf₂.1
      with ⟨p₂, hpm₂, hm₂⟩
    refine ⟨p₁, hpm₁, p₂, hpm₂, hm₁, hm₂, ?_⟩
    refine claim_pool_eq p₁.2.name p₂.2.name timestamp (hD p₁ hpm₁) (hD p₂ hpm₂) hT ?_
    rw [← hm₁, ← hm₂, hp₁, hp₂]
  · exact (List.sorted_insertionSort (fun a b : Name => a ≤ b) _).sublist
      (dedupAdj_sublist _)
  · exact nodup_dedupAdj_of_sorted _ (List.sorted_insertionSort (fun a b : Name => a ≤ b) _)

/-- C7 witness: the rpool group of the concrete batch over rpool/home
(twice), tank/data and the pool-root dataset rpool at timestamp T1. -/
theorem c7_pool_groups_witness :
    pool_of ("rpool/home@snap_T1_httmSnapFileMount".toList) = "rpool".toList ∧
    List.Sorted (fun a b : Name => a ≤ b)
      (["rpool/home@snap_T1_httmSnapFileMount".toList] : List Name) ∧
    (["rpool/home@snap_T1_httmSnapFileMount".toList] : List Name).Nodup := by
  have H := c7_pool_groups snapCfg7 mff7 ("T1".toList) names7 (by decide)
    (by decide) (by decide)
    ("rpool".toList, ["rpool/home@snap_T1_httmSnapFileMount".toList])
    (by decide)
  exact ⟨H.2.1 _ (by decide), H.2.2.2.1, H.2.2.2.2⟩

theorem mapE_error_head {α β : Type} (x : α) (xs : List α)
    (f : α → Except HttmError β) (e : HttmError) (h : f x = .error e) :
    mapE (x :: xs) f = .error e := by
  unfold mapE
  rw [h]

theorem mapE_error_of_all {α β : Type} (l : List α) (f : α → Except HttmError β)
    (E : HttmError)
    (hall : ∀ x ∈ l, (∃ y, f x = .ok y) ∨ f x = .error E)
    (hbad : ∃ x ∈ l, f x = .error E) : mapE l f = .error E := by
  induction l with
  | nil =>
      rcases hbad with ⟨x, hx, _⟩
      cases hx
  | cons a rest ih =>
      rcases hall a (List.mem_cons_self a rest) with ⟨y, hy⟩ | hy
      · have hrest : ∃ x ∈ rest, f x = .error E := by
          rcases hbad with ⟨x, hx, hfx⟩
          rcases List.mem_cons.mp hx with hxa | hx'
          · rw [hxa, hy] at hfx
            cases hfx
          · exact ⟨x, hx', hfx⟩
        have := ih (fun x hx => hall x (List.mem_cons.mpr (Or.inr hx))) hrest
        unfold mapE
        rw [hy, this]
      · exact mapE_error_head a rest f E hy

/-- C8 (amended): when the alias map is present at all, every non-empty
batch fails with the unsupported-alias error — regardless of whether the
mount comes from the alias map; when the alias map is absent and every
mount resolves in the mount table, a batch containing a non-ZFS mount
fails with the unsupported-filesystem error.  In either case the `Result`
is an error, so no snapshot name is produced for the batch. -/
theorem c8_snapshot_errors (config : SnapConfig)
    (mounts_for_files : List (PathData × List PathData)) (timestamp : Name) :
    (∀ al, config.opt_map_of_aliases = some al →
      ∀ m₀ ∈ mounts_for_files.flatMap Prod.snd,
        vec_snapshot_names config mounts_for_files timestamp =
          .error unsupportedAliasError) ∧
    (config.opt_map_of_aliases = none →
      (∀ m ∈ mounts_for_files.flatMap Prod.snd,
        (lookupKV config.map_of_datasets m.path_buf).isSome = true) →
      (∃ m ∈ mounts_for_files.flatMap Prod.snd,
        ∃ di, lookupKV config.map_of_datasets m.path_buf = some di ∧
          ¬ di.fs_type = FilesystemType.zfs) →
      vec_snapshot_names config mounts_for_files timestamp =
        .error unsupportedFilesystemError) := by
  constructor
  · intro al ha m₀ hm₀
    rcases List.exists_cons_of_ne_nil (List.ne_nil_of_mem hm₀) with ⟨x, xs, hl⟩
    unfold vec_snapshot_names
    rw [hl]
    refine mapE_error_head x xs _ _ ?_
    rw [ha]
  · intro ha hall hbad
    unfold vec_snapshot_names
    refine mapE_error_of_all _ _ _ ?_ ?_
    · intro m hm
      rw [ha]
      have hs := hall m hm
      cases hlk : lookupKV config.map_of_datasets m.path_buf with
      | none => rw [hlk] at hs; cases hs
      | some di =>
          dsimp only
          by_cases hz : di.fs_type = FilesystemType.zfs
          · exact Or.inl ⟨make_snapshot_name di.name timestamp, by rw [if_pos hz]⟩
          · exact Or.inr (by rw [if_neg hz])
    · rcases hbad with ⟨m, hm, di, hlk, hz⟩
      refine ⟨m, hm, ?_⟩
      rw [ha, hlk]
      dsimp only
      rw [if_neg hz]

/-- C8 witness: an alias map containing only an unrelated entry makes the
batch over the plain ZFS mount `/home` fail with the unsupported-alias
error. -/
theorem c8_snapshot_errors_witness :
    vec_snapshot_names snapCfg8 mff8 "T1".toList = .error unsupportedAliasError :=
  (c8_snapshot_errors snapCfg8 mff8 ("T1".toList)).1 [(["a"], ["b"])] (by decide)
    ⟨["home"], 0, 0, false⟩ (by decide)

/-- C8 counterexample: the claim ties the unsupported-alias error to the
mount coming from the alias map; here the mount `/home` is a plain ZFS
dataset absent from the alias map, yet the batch fails with the
unsupported-alias error (the code tests only the presence of the alias
map). -/
theorem c8_counterexample :
    vec_snapshot_names snapCfg8 mff8 "T1".toList = .error unsupportedAliasError ∧
    lookupKV (snapCfg8.opt_map_of_aliases.getD []) (["home"] : FsPath) = none ∧
    lookupKV snapCfg8.map_of_datasets ["home"] =
      some ⟨"rpool/home".toList, FilesystemType.zfs⟩ := by
  refine ⟨by decide, by decide, by decide⟩

/-- C9: evaluation of the cache bug.  With the single mount `/home`, the
first resolution of `/home/alice/x.txt` walks the ancestors and returns
`/home` while inserting the self-assigned pair (parent, parent) into the
cache; the second, cache-hitting resolution then returns `/home/alice` —
the parent directory, not a mount point — so two successive calls are not
equal and resolution is not idempotent. -/
theorem c9_cache_breaks_idempotence :
    (get_proximate_dataset [] pdS1 mapHome).1 = .ok ["home"] ∧
    (get_proximate_dataset [] pdS1 mapHome).2 =
      [(["home", "alice"], ["home", "alice"])] ∧
    (get_proximate_dataset (get_proximate_dataset [] pdS1 mapHome).2
        pdS1 mapHome).1 = .ok ["home", "alice"] ∧
    ¬ ((get_proximate_dataset (get_proximate_dataset [] pdS1 mapHome).2
          pdS1 mapHome).1 =
        (get_proximate_dataset [] pdS1 mapHome).1) := by
  refine ⟨by decide, by decide, by decide, by decide⟩

theorem pathdata_fromFs_path (fs : Fs) (p : FsPath) :
    (PathData.fromFs fs p).path_buf = p := by
  unfold PathData.fromFs
  cases fs.lstat p <;> rfl

theorem lookupKV_isSome_of_mem_keys {κ ν : Type} [DecidableEq κ]
    (l : List (κ × ν)) (k : κ) (h : k ∈ l.map Prod.fst) :
    (lookupKV l k).isSome := by
  induction l with
  | nil => simp at h
  | cons p rest ih =>
      by_cases hp : p.1 = k
      · simp [lookupKV_cons, hp]
      · simp only [List.map_cons, List.mem_cons] at h
        rcases h with h | h
        · exact absurd h.symm hp
        · simp [lookupKV_cons, hp, ih h]

theorem mem_keys_collectKV {κ ν : Type} [DecidableEq κ]
    (l : List (κ × ν)) (k : κ) :
    k ∈ (collectKV l).map Prod.fst ↔ k ∈ l.map Prod.fst := by
  suffices h : ∀ acc : List (κ × ν),
      (k ∈ (l.foldl insertKV acc).map Prod.fst ↔
        k ∈ acc.map Prod.fst ∨ k ∈ l.map Prod.fst) by
    simpa [collectKV] using h []
  induction l with
  | nil => intro acc; simp
  | cons p rest ih =>
      intro acc
      rw [List.foldl_cons, ih (insertKV acc p)]
      rw [keys_insertKV]
      simp only [List.map_cons, List.mem_cons]
      tauto

theorem entriesOfDir_mem (fs : Fs) (dir : FsPath)
    (p : String × BasicDirEntryInfo) (h : p ∈ entriesOfDir fs dir) :
    ∃ listed, fs.readDir dir = some listed ∧ p.1 ∈ listed ∧
      p.2 = ⟨p.1, dir ++ [p.1]⟩ := by
  unfold entriesOfDir at h
  cases hrd : fs.readDir dir with
  | none => rw [hrd] at h; cases h
  | some listed =>
      rw [hrd] at h
      rcases List.mem_map.mp h with ⟨n, hn, hpn⟩
      cases hpn
      exact ⟨listed, rfl, hn, rfl⟩

theorem read_dir_snap_ok (fs : Fs) (snapshot_dir relative_path : FsPath)
    (kv : List (String × BasicDirEntryInfo))
    (h : read_dir_for_snap_filenames fs snapshot_dir relative_path = .ok kv) :
    ∃ entries, fs.readDir snapshot_dir = some entries ∧
      kv = collectKV ((entries.map
        (fun e => snapshot_dir ++ [e] ++ relative_path)).flatMap (entriesOfDir fs)) := by
  unfold read_dir_for_snap_filenames at h
  cases hrd : fs.readDir snapshot_dir with
  | none => rw [hrd] at h; cases h
  | some entries =>
      rw [hrd] at h
      cases h
      exact ⟨entries, rfl, rfl⟩

theorem snapKV_source (fs : Fs) (config : Config) (search_bundle : SearchBundle)
    (kv : List (String × BasicDirEntryInfo))
    (h : unique_snap_filenames_of fs config search_bundle = .ok kv) :
    ∀ p ∈ kv, ∃ dir listed, fs.readDir dir = some listed ∧ p.1 ∈ listed ∧
      p.2 = ⟨p.1, dir ++ [p.1]⟩ := by
  have hflat : ∀ (dirs : List FsPath) (p : String × BasicDirEntryInfo),
      p ∈ collectKV (dirs.flatMap (entriesOfDir fs)) →
      ∃ dir listed, fs.readDir dir = some listed ∧ p.1 ∈ listed ∧
        p.2 = ⟨p.1, dir ++ [p.1]⟩ := by
    intro dirs p hp
    rcases List.mem_flatMap.mp (mem_collectKV _ p hp) with ⟨dir, _, hpd⟩
    rcases entriesOfDir_mem fs dir p hpd with ⟨listed, hrd, hm, hpe⟩
    exact ⟨dir, listed, hrd, hm, hpe⟩
  unfold unique_snap_filenames_of at h
  split at h
  · split at h
    · split at h
      · cases h
        intro p hp
        exact hflat _ p hp
      · rcases read_dir_snap_ok _ _ _ _ h with ⟨entries, _, hkv⟩
        intro p hp
        rw [hkv] at hp
        exact hflat _ p hp
    · rcases read_dir_snap_ok _ _ _ _ h with ⟨entries, _, hkv⟩
      intro p hp
      rw [hkv] at hp
      exact hflat _ p hp
  · rcases read_dir_snap_ok _ _ _ _ h with ⟨entries, _, hkv⟩
    intro p hp
    rw [hkv] at hp
    exact hflat _ p hp

theorem localKV_ok (fs : Fs) (requested_dir : FsPath)
    (kv : List (String × BasicDirEntryInfo))
    (h : unique_local_filenames_of fs requested_dir = .ok kv) :
    ∃ listed, fs.readDir requested_dir = some listed ∧
      kv = collectKV (listed.map
        (fun n => (n, (⟨n, requested_dir ++ [n]⟩ : BasicDirEntryInfo)))) := by
  unfold unique_local_filenames_of at h
  cases hrd : fs.readDir requested_dir with
  | none => rw [hrd] at h; cases h
  | some listed =>
      rw [hrd] at h
      cases h
      exact ⟨listed, rfl, rfl⟩

theorem deleted_per_dataset_ok (fs : Fs) (config : Config)
    (requested_dir : FsPath) (search_bundle : SearchBundle)
    (outd : List BasicDirEntryInfo)
    (h : get_deleted_per_dataset fs config requested_dir search_bundle = .ok outd) :
    ∃ localKV snapKV,
      unique_local_filenames_of fs requested_dir = .ok localKV ∧
      unique_snap_filenames_of fs config search_bundle = .ok snapKV ∧
      outd = (snapKV.filter
        (fun p => (lookupKV localKV p.1).isNone)).map Prod.snd := by
  unfold get_deleted_per_dataset at h
  cases hl : unique_local_filenames_of fs requested_dir with
  | error e => rw [hl] at h; cases h
  | ok localKV =>
      rw [hl] at h
      cases hs : unique_snap_filenames_of fs config search_bundle with
      | error e => rw [hs] at h; cases h
      | ok snapKV =>
          rw [hs] at h
          cases h
          exact ⟨localKV, snapKV, rfl, rfl, rfl⟩

/-- Every deleted candidate's filename is absent from the live listing
and present in some snapshot listing, with the candidate's path being the
listing directory joined with the filename. -/
theorem deleted_candidates_spec (fs : Fs) (config : Config)
    (requested_dir : FsPath) :
    ∀ b ∈ deleted_candidates fs config requested_dir,
      (∀ live_names, fs.readDir requested_dir = some live_names →
        b.file_name ∉ live_names) ∧
      (∃ dir listed, fs.readDir dir = some listed ∧ b.file_name ∈ listed ∧
        b.path = dir ++ [b.file_name]) := by
  intro b hb
  unfold deleted_candidates at hb
  rcases List.mem_flatMap.mp hb with ⟨sb, _, hbsb⟩
  rw [pathdata_fromFs_path fs requested_dir] at hbsb
  cases hres : get_deleted_per_dataset fs config requested_dir sb with
  | error e =>
      rw [hres] at hbsb
      cases hbsb
  | ok outd =>
      rw [hres] at hbsb
      simp only [exceptList] at hbsb
      rcases deleted_per_dataset_ok fs config requested_dir sb outd hres
        with ⟨localKV, snapKV, hl, hs, houtd⟩
      rw [houtd] at hbsb
      rcases List.mem_map.mp hbsb with ⟨p, hpf, hpb⟩
      have hpfilter := List.mem_filter.mp hpf
      rcases snapKV_source fs config sb snapKV hs p hpfilter.1
        with ⟨dir, listed, hrd, hmem, hpe⟩
      have hname : p.1 = b.file_name := by
        rw [← hpb, hpe]
      constructor
      · intro live_names hlive hcontra
        rcases localKV_ok fs requested_dir localKV hl with ⟨listed', hrd', hkv'⟩
        have : live_names = listed' := by
          rw [hlive] at hrd'
          exact Option.some.inj hrd'
        subst this
        have hin : b.file_name ∈ localKV.map Prod.fst := by
          rw [hkv', mem_keys_collectKV]
          rw [List.map_map]
          simpa using hcontra
        have hsome := lookupKV_isSome_of_mem_keys localKV b.file_name hin
        have hnone := hpfilter.2
        simp only [Option.isNone_iff_eq_none, decide_eq_true_eq] at hnone
        rw [hname] at hnone
        rw [hnone] at hsome
        cases hsome
      · refine ⟨dir, listed, hrd, ?_, ?_⟩
        · rw [← hname]
          exact hmem
        · rw [← hpb, hpe, hname]

theorem maxByKey_mem {α : Type} (f : α → Nat) (l : List α) (m : α)
    (h : maxByKey f l = some m) : m ∈ l ∧ ∀ x ∈ l, f x ≤ f m := by
  cases l with
  | nil => cases h
  | cons a rest =>
      rcases maxByKey_spec f (a :: rest) (by simp) with ⟨m', hm', hmem, hmax⟩
      rw [hm'] at h
      cases h
      exact ⟨hmem, hmax⟩

theorem maxByKey_isSome {α : Type} (f : α → Nat) (l : List α) (hne : l ≠ []) :
    (maxByKey f l).isSome := by
  rcases maxByKey_spec f l hne with ⟨m, hm, _, _⟩
  rw [hm]
  rfl

theorem groupPairs_mem (l : List (Nat × BasicDirEntryInfo))
    (g : String × List (Nat × BasicDirEntryInfo)) (hg : g ∈ groupPairs l) :
    g.2 = l.filter (fun p => decide (p.2.file_name = g.1)) := by
  unfold groupPairs at hg
  rcases List.mem_map.mp hg with ⟨k, _, hke⟩
  cases hke
  rfl

theorem groupPairs_keys (l : List (Nat × BasicDirEntryInfo)) :
    (groupPairs l).map Prod.fst = (l.map (fun p => p.2.file_name)).dedup := by
  unfold groupPairs
  rw [List.map_map]
  have hcomp : (Prod.fst ∘ fun k => (k, l.filter
      (fun p => decide (p.2.file_name = k)))) = id := rfl
  rw [hcomp, List.map_id]

/-- The elements of `get_unique_deleted`'s output are group maxima: each
carries a time at which it appeared in `deleted_with_times`, maximal among
all appearances of its file name. -/
theorem unique_deleted_mem_with_times (fs : Fs) (config : Config)
    (requested_dir : FsPath) (out : List BasicDirEntryInfo)
    (hok : get_unique_deleted fs config requested_dir = .ok out) :
    ∀ b ∈ out, ∃ t, (t, b) ∈ deleted_with_times fs config requested_dir ∧
      ∀ t' b', (t', b') ∈ deleted_with_times fs config requested_dir →
        b'.file_name = b.file_name → t' ≤ t := by
  unfold get_unique_deleted at hok
  cases hok
  intro b hb
  rcases List.mem_map.mp hb with ⟨p, hp, hpb⟩
  rcases List.mem_filterMap.mp hp with ⟨g, hg, hmax⟩
  rcases maxByKey_mem _ _ _ hmax with ⟨hpmem, hpmax⟩
  have hgrp := groupPairs_mem _ g hg
  rw [hgrp] at hpmem hpmax
  have hpfil := List.mem_filter.mp hpmem
  have hpname : p.2.file_name = g.1 := by simpa using hpfil.2
  refine ⟨p.1, ?_, ?_⟩
  · rw [← hpb, Prod.mk.eta]
    exact hpfil.1
  · intro t' b' hmem' hname'
    have hmemf : (t', b') ∈ (deleted_with_times fs config requested_dir).filter
        (fun q => decide (q.2.file_name = g.1)) := by
      refine List.mem_filter.mpr ⟨hmem', ?_⟩
      simp only [decide_eq_true_eq]
      rw [hname', ← hpb, hpname]
    exact hpmax (t', b') hmemf

/-- Every file name appearing in `deleted_with_times` is represented in
`get_unique_deleted`'s output. -/
theorem unique_deleted_complete (fs : Fs) (config : Config)
    (requested_dir : FsPath) (out : List BasicDirEntryInfo)
    (hok : get_unique_deleted fs config requested_dir = .ok out) :
    ∀ t b, (t, b) ∈ deleted_with_times fs config requested_dir →
      ∃ b' ∈ out, b'.file_name = b.file_name := by
  unfold get_unique_deleted at hok
  cases hok
  intro t b hmem
  have hkey : b.file_name ∈
      (deleted_with_times fs config requested_dir).map (fun p => p.2.file_name) :=
    List.mem_map.mpr ⟨(t, b), hmem, rfl⟩
  have hkey' := List.mem_dedup.mpr hkey
  have hgmem : (b.file_name, (deleted_with_times fs config requested_dir).filter
      (fun p => decide (p.2.file_name = b.file_name))) ∈
      groupPairs (deleted_with_times fs config requested_dir) := by
    unfold groupPairs
    exact List.mem_map.mpr ⟨b.file_name, hkey', rfl⟩
  have hne : (deleted_with_times fs config requested_dir).filter
      (fun p => decide (p.2.file_name = b.file_name)) ≠ [] := by
    apply List.ne_nil_of_mem (a := (t, b))
    exact List.mem_filter.mpr ⟨hmem, by simp⟩
  have hsome := maxByKey_isSome Prod.fst _ hne
  cases hmax : maxByKey Prod.fst ((deleted_with_times fs config requested_dir).filter
      (fun p => decide (p.2.file_name = b.file_name))) with
  | none => rw [hmax] at hsome; cases hsome
  | some m =>
      rcases maxByKey_mem _ _ _ hmax with ⟨hmm, _⟩
      have hmname : m.2.file_name = b.file_name := by
        have := (List.mem_filter.mp hmm).2
        simpa using this
      refine ⟨m.2, ?_, hmname⟩
      refine List.mem_map.mpr ⟨m, ?_, rfl⟩
      exact List.mem_filterMap.mpr ⟨_, hgmem, hmax⟩

/-- The output's file names are distinct. -/
theorem unique_deleted_names_nodup (fs : Fs) (config : Config)
    (requested_dir : FsPath) (out : List BasicDirEntryInfo)
    (hok : get_unique_deleted fs config requested_dir = .ok out) :
    (out.map BasicDirEntryInfo.file_name).Nodup := by
  unfold get_unique_deleted at hok
  cases hok
  have hsub : ∀ groups : List (String × List (Nat × BasicDirEntryInfo)),
      (∀ g ∈ groups, ∀ p ∈ g.2, p.2.file_name = g.1) →
      List.Sublist (((groups.filterMap (fun g => maxByKey Prod.fst g.2)).map
        Prod.snd).map BasicDirEntryInfo.file_name) (groups.map Prod.fst) := by
    intro groups
    induction groups with
    | nil => intro _; simp
    | cons g rest ih =>
        intro hk
        cases hm : maxByKey Prod.fst g.2 with
        | none =>
            simp only [List.filterMap_cons, hm, List.map_cons]
            exact (ih (fun g' hg' => hk g' (List.mem_cons.mpr (Or.inr hg')))).cons g.1
        | some m =>
            simp only [List.filterMap_cons, hm, List.map_cons]
            have hmg : m.2.file_name = g.1 :=
              hk g (List.mem_cons_self g rest) m (maxByKey_mem _ _ _ hm).1
            rw [hmg]
            exact (ih (fun g' hg' => hk g' (List.mem_cons.mpr (Or.inr hg')))).cons₂ g.1
  have hkgroups : ∀ g ∈ groupPairs (deleted_with_times fs config requested_dir),
      ∀ p ∈ g.2, p.2.file_name = g.1 := by
    intro g hg p hp
    rw [groupPairs_mem _ g hg] at hp
    simpa using (List.mem_filter.mp hp).2
  have := hsub (groupPairs (deleted_with_times fs config requested_dir)) hkgroups
  refine List.Nodup.sublist this ?_
  rw [groupPairs_keys]
  exact List.nodup_dedup _

/-- The output is drawn from the deleted candidates, pairs matched by the
`filter_map` over `symlink_metadata` and `modified`. -/
theorem deleted_with_times_mem (fs : Fs) (config : Config)
    (requested_dir : FsPath) (t : Nat) (b : BasicDirEntryInfo)
    (h : (t, b) ∈ deleted_with_times fs config requested_dir) :
    b ∈ deleted_candidates fs config requested_dir ∧
      ∃ md, fs.lstat b.path = some md ∧ md.modified = some t := by
  unfold deleted_with_times at h
  rcases List.mem_filterMap.mp h with ⟨c, hc, hfc⟩
  rcases Option.bind_eq_some.mp hfc with ⟨md, hmd, hmap⟩
  rcases Option.map_eq_some'.mp hmap with ⟨t', ht', hpair⟩
  have hct : c = b ∧ t' = t := by
    constructor
    · exact congrArg Prod.snd hpair
    · exact congrArg Prod.fst hpair
  rcases hct with ⟨hcb, htt⟩
  subst hcb
  subst htt
  exact ⟨hc, md, hmd, ht'⟩

/-- C6 (amended): deleted-entry lookup returns at most one entry per file
name; every returned entry is a surviving candidate — within each dataset
only the last snapshot observation of a name survives the per-dataset
dedup map — whose file name appears in some snapshot listing and not in
the live listing; its modify time is maximal among all surviving,
lstat-able candidates of that name; and every file name with at least one
surviving lstat-able candidate is represented. -/
theorem c6_deleted_unique_max (fs : Fs) (config : Config)
    (requested_dir : FsPath) (out : List BasicDirEntryInfo)
    (hok : get_unique_deleted fs config requested_dir = .ok out) :
    (out.map BasicDirEntryInfo.file_name).Nodup ∧
    (∀ b ∈ out, ∃ t, (t, b) ∈ deleted_with_times fs config requested_dir ∧
      ∀ t' b', (t', b') ∈ deleted_with_times fs config requested_dir →
        b'.file_name = b.file_name → t' ≤ t) ∧
    (∀ t b, (t, b) ∈ deleted_with_times fs config requested_dir →
      ∃ b' ∈ out, b'.file_name = b.file_name) ∧
    (∀ b ∈ out,
      b ∈ deleted_candidates fs config requested_dir ∧
      (∀ live_names, fs.readDir requested_dir = some live_names →
        b.file_name ∉ live_names) ∧
      (∃ dir listed, fs.readDir dir = some listed ∧ b.file_name ∈ listed ∧
        b.path = dir ++ [b.file_name])) := by
  refine ⟨unique_deleted_names_nodup fs config requested_dir out hok,
    unique_deleted_mem_with_times fs config requested_dir out hok,
    unique_deleted_complete fs config requested_dir out hok, ?_⟩
  intro b hb
  rcases unique_deleted_mem_with_times fs config requested_dir out hok b hb
    with ⟨t, hmem, _⟩
  have hcand := (deleted_with_times_mem fs config requested_dir t b hmem).1
  exact ⟨hcand, deleted_candidates_spec fs config requested_dir b hcand⟩

/-- C6 witness at the two-snapshot deletion scenario for `/home/alice`. -/
theorem c6_deleted_unique_max_witness :
    (([⟨"y", homeSnapB ++ ["alice", "y"]⟩] :
        List BasicDirEntryInfo).map BasicDirEntryInfo.file_name).Nodup ∧
    (∀ b ∈ ([⟨"y", homeSnapB ++ ["alice", "y"]⟩] : List BasicDirEntryInfo),
      ∃ t, (t, b) ∈ deleted_with_times fsDel cfgHome rdDel ∧
      ∀ t' b', (t', b') ∈ deleted_with_times fsDel cfgHome rdDel →
        b'.file_name = b.file_name → t' ≤ t) ∧
    (∀ t b, (t, b) ∈ deleted_with_times fsDel cfgHome rdDel →
      ∃ b' ∈ ([⟨"y", homeSnapB ++ ["alice", "y"]⟩] : List BasicDirEntryInfo),
        b'.file_name = b.file_name) ∧
    (∀ b ∈ ([⟨"y", homeSnapB ++ ["alice", "y"]⟩] : List BasicDirEntryInfo),
      b ∈ deleted_candidates fsDel cfgHome rdDel ∧
      (∀ live_names, fsDel.readDir rdDel = some live_names →
        b.file_name ∉ live_names) ∧
      (∃ dir listed, fsDel.readDir dir = some listed ∧ b.file_name ∈ listed ∧
        b.path = dir ++ [b.file_name])) :=
  c6_deleted_unique_max fsDel cfgHome rdDel
    [⟨"y", homeSnapB ++ ["alice", "y"]⟩] (by decide)

/-- C6 counterexample: the live directory holds only `x`; snapA lists `y`
with modify time 70 and snapB lists `y` with modify time 50; both
snapshots belong to the one dataset.  The returned representative for `y`
is the snapB path (mtime 50), because within one dataset the later
snapshot mount's entry overwrote the earlier one before the max-mtime
aggregation — the claim's max over *all* (dataset × snapshot)
observations would demand the snapA path (mtime 70). -/
theorem c6_counterexample :
    get_unique_deleted fsDel cfgHome rdDel =
      .ok [⟨"y", homeSnapB ++ ["alice", "y"]⟩] ∧
    fsDel.readDir (homeSnapA ++ ["alice"]) = some ["x", "y"] ∧
    fsDel.readDir rdDel = some ["x"] ∧
    fsDel.lstat (homeSnapA ++ ["alice", "y"]) = some ⟨some 70, 1⟩ ∧
    fsDel.lstat (homeSnapB ++ ["alice", "y"]) = some ⟨some 50, 1⟩ := by
  refine ⟨by decide, by decide, by decide, by decide, by decide⟩

/-- C10: a candidate whose representative snapshot path can no longer be
lstat'd at aggregation time (or whose metadata carries no modify time) is
silently omitted from the returned list: the call still succeeds and the
candidate is absent from the output. -/
theorem c10_lstat_failure_omits (fs : Fs) (config : Config)
    (requested_dir : FsPath) (b : BasicDirEntryInfo)
    (out : List BasicDirEntryInfo)
    (_hb : b ∈ deleted_candidates fs config requested_dir)
    (hfail : fs.lstat b.path = none ∨
      ∃ md, fs.lstat b.path = some md ∧ md.modified = none)
    (hok : get_unique_deleted fs config requested_dir = .ok out) :
    b ∉ out := by
  intro hmem
  rcases unique_deleted_mem_with_times fs config requested_dir out hok b hmem
    with ⟨t, hwt, _⟩
  rcases (deleted_with_times_mem fs config requested_dir t b hwt).2
    with ⟨md, hmd, hmod⟩
  rcases hfail with hnone | ⟨md', hmd', hmod'⟩
  · rw [hnone] at hmd
    cases hmd
  · rw [hmd'] at hmd
    cases hmd
    rw [hmod'] at hmod
    cases hmod

/-- C10 witness: `y` is listed in the snapshot and absent from the live
directory, but its snapshot path cannot be lstat'd; the call still
succeeds, returning only `z`, with `y`'s candidate omitted. -/
theorem c10_lstat_failure_omits_witness :
    (⟨"y", homeSnapA ++ ["alice", "y"]⟩ : BasicDirEntryInfo) ∉
      ([⟨"z", homeSnapA ++ ["alice", "z"]⟩] : List BasicDirEntryInfo) :=
  c10_lstat_failure_omits fsGone cfgHomeA rdDel
    ⟨"y", homeSnapA ++ ["alice", "y"]⟩
    [⟨"z", homeSnapA ++ ["alice", "z"]⟩]
    (by decide) (Or.inl (by decide)) (by decide)
